import Mathlib

/-!
# Formal model of the comet-core event processing scheduler

A shallow embedding of the comet-core security-alert scheduler
(`comet_core/data_store.py`, `comet_core/app.py`, `comet_core/model.py`,
`comet_core/fingerprint.py`).

The persistent store is modelled as in-memory lists of rows; `datetime`
values are integers (seconds since the epoch) and `timedelta` values are
integer numbers of seconds.  SQL queries are translated to list filters,
sorts and aggregations with the same semantics as the SQLAlchemy queries
they embed.  Python code that raises an exception on some input is
modelled with `Except String`.
-/

namespace Comet

/-- A point in time (`datetime`), in seconds since the epoch. -/
abbrev Time := Int

/-- A duration (`timedelta`), in seconds. -/
abbrev Timedelta := Int

/-- `timedelta(hours=36)` in seconds, the default `escalate_cadence`. -/
def hours36 : Timedelta := 36 * 3600

/-- One row of the `event` table (`model.py`, class `EventRecord`), together
with the transient per-pass decision flags (`new`, `needs_escalation`,
`first_escalation`) that the scheduler stores on the Python objects.
The nullable lifecycle timestamps are `Option Time`. -/
structure EventRecord where
  id : Nat
  source_type : String
  fingerprint : String
  owner : String
  received_at : Time
  sent_at : Option Time := none
  escalated_at : Option Time := none
  processed_at : Option Time := none
  new : Bool := false
  needs_escalation : Bool := false
  first_escalation : Bool := false
  deriving DecidableEq, Repr

/-- One row of the `ignore_fingerprint` table (`model.py`,
class `IgnoreFingerprintRecord`). -/
structure IgnoreFingerprintRecord where
  id : Nat
  fingerprint : String
  ignore_type : String
  reported_at : Time
  expires_at : Option Time := none
  deriving DecidableEq, Repr

/-- `IgnoreFingerprintRecord.ESCALATE_MANUALLY`. -/
def ESCALATE_MANUALLY : String := "escalate_manually"

/-- The database: the two tables used by the scheduler. -/
structure DB where
  events : List EventRecord
  ignores : List IgnoreFingerprintRecord
  deriving DecidableEq, Repr

/-- Ordering of event rows by `received_at` (the `ORDER BY received_at ASC`
of the unprocessed-batch query). -/
def receivedLE (a b : EventRecord) : Prop := a.received_at ≤ b.received_at

instance : DecidableRel receivedLE := fun a b =>
  inferInstanceAs (Decidable (a.received_at ≤ b.received_at))

instance : IsTotal EventRecord receivedLE :=
  ⟨fun a b => Int.le_total a.received_at b.received_at⟩

instance : IsTrans EventRecord receivedLE :=
  ⟨fun _ _ _ hab hbc => le_trans hab hbc⟩

instance : IsRefl EventRecord receivedLE := ⟨fun a => le_refl a.received_at⟩

/-- The rows matched by
`query(EventRecord).filter(processed_at IS NULL AND source_type = st)`. -/
def pendingRows (db : DB) (source_type : String) : List EventRecord :=
  db.events.filter (fun e => e.processed_at.isNone && e.source_type == source_type)

/-- The unprocessed rows of a source type ordered by `received_at`
ascending — the result of the SQL query inside
`get_unprocessed_events_batch` before the debounce test. -/
def sortedBatch (db : DB) (source_type : String) : List EventRecord :=
  List.insertionSort receivedLE (pendingRows db source_type)

/-- `DataStore.get_unprocessed_events_batch` (`data_store.py`): all
unprocessed rows of the source type ordered by `received_at` ascending,
returned only if the latest such row is older than `wait_for_more` or the
oldest is older than `max_wait`; otherwise the empty list.  `events[-1]`
and `events[0]` are the `getLast?`/`head?` of the sorted query result. -/
def get_unprocessed_events_batch (db : DB) (wait_for_more max_wait : Timedelta)
    (source_type : String) (now : Time) : List EventRecord :=
  match (sortedBatch db source_type).getLast?, (sortedBatch db source_type).head? with
  | some latest, some earliest =>
    if latest.received_at < now - wait_for_more then sortedBatch db source_type
    else if earliest.received_at < now - max_wait then sortedBatch db source_type
    else []
  | _, _ => []

/-! ### Helper lemmas about sorted lists -/

theorem sorted_le_getLast {l : List EventRecord}
    (hs : List.Sorted receivedLE l) {x : EventRecord} (hx : l.getLast? = some x) :
    ∀ e ∈ l, e.received_at ≤ x.received_at := by
  induction l with
  | nil => simp at hx
  | cons a t ih =>
    cases t with
    | nil =>
      simp only [List.getLast?_singleton, Option.some_inj] at hx
      subst hx
      intro e he
      simp only [List.mem_singleton] at he
      subst he
      exact le_refl _
    | cons b u =>
      rw [List.getLast?_cons_cons] at hx
      have hsorted_t : List.Sorted receivedLE (b :: u) := hs.of_cons
      have hx_mem : x ∈ b :: u := List.mem_of_getLast?_eq_some hx
      intro e he
      rcases List.mem_cons.mp he with he | he
      · subst he
        exact (List.sorted_cons.mp hs).1 x hx_mem
      · exact ih hsorted_t hx e he

theorem head_le_sorted {l : List EventRecord}
    (hs : List.Sorted receivedLE l) {x : EventRecord} (hx : l.head? = some x) :
    ∀ e ∈ l, x.received_at ≤ e.received_at := by
  cases l with
  | nil => simp at hx
  | cons a t =>
    simp only [List.head?_cons, Option.some_inj] at hx
    subst hx
    intro e he
    rcases List.mem_cons.mp he with he | he
    · subst he; exact le_refl _
    · exact (List.sorted_cons.mp hs).1 e he

theorem batch_eq_of_some {db : DB} {source_type : String} {latest earliest : EventRecord}
    (wait_for_more max_wait : Timedelta) (now : Time)
    (hl : (sortedBatch db source_type).getLast? = some latest)
    (hh : (sortedBatch db source_type).head? = some earliest) :
    get_unprocessed_events_batch db wait_for_more max_wait source_type now =
      if latest.received_at < now - wait_for_more then sortedBatch db source_type
      else if earliest.received_at < now - max_wait then sortedBatch db source_type
      else [] := by
  unfold get_unprocessed_events_batch
  rw [hl, hh]

theorem batch_eq_nil_of_empty {db : DB} {source_type : String}
    (wait_for_more max_wait : Timedelta) (now : Time)
    (hnil : sortedBatch db source_type = []) :
    get_unprocessed_events_batch db wait_for_more max_wait source_type now = [] := by
  unfold get_unprocessed_events_batch
  rw [hnil]
  rfl

/-- C1.  `get_unprocessed_events_batch` returns the complete set of
unprocessed rows of the source type (as a permutation of the query filter),
ordered by `received_at` ascending, exactly when there is at least one such
row and either every row (in particular the most recent) was received more
than `wait_for_more` ago, or some row (in particular the oldest) was
received more than `max_wait` ago; otherwise it returns `[]`. -/
theorem c1_get_unprocessed_events_batch (db : DB) (wait_for_more max_wait : Timedelta)
    (source_type : String) (now : Time) :
    (pendingRows db source_type ≠ [] ∧
        ((∀ e ∈ pendingRows db source_type, e.received_at < now - wait_for_more) ∨
         (∃ e ∈ pendingRows db source_type, e.received_at < now - max_wait)) →
      (get_unprocessed_events_batch db wait_for_more max_wait source_type now).Perm
          (pendingRows db source_type) ∧
      List.Sorted receivedLE
          (get_unprocessed_events_batch db wait_for_more max_wait source_type now)) ∧
    (¬ (pendingRows db source_type ≠ [] ∧
        ((∀ e ∈ pendingRows db source_type, e.received_at < now - wait_for_more) ∨
         (∃ e ∈ pendingRows db source_type, e.received_at < now - max_wait))) →
      get_unprocessed_events_batch db wait_for_more max_wait source_type now = []) := by
  have hperm : (sortedBatch db source_type).Perm (pendingRows db source_type) :=
    List.perm_insertionSort receivedLE (pendingRows db source_type)
  have hsorted : List.Sorted receivedLE (sortedBatch db source_type) :=
    List.sorted_insertionSort receivedLE (pendingRows db source_type)
  have hmem : ∀ e, e ∈ sortedBatch db source_type ↔ e ∈ pendingRows db source_type :=
    fun _ => hperm.mem_iff
  cases hlast : (sortedBatch db source_type).getLast? with
  | none =>
    -- the sorted list is empty, hence so is the filter
    have hevents_nil : sortedBatch db source_type = [] :=
      List.getLast?_eq_none_iff.mp hlast
    have hpending_nil : pendingRows db source_type = [] := by
      have h := hperm
      rw [hevents_nil] at h
      exact (List.Perm.nil_eq h).symm
    refine ⟨fun ⟨hne, _⟩ => absurd hpending_nil hne, fun _ => ?_⟩
    exact batch_eq_nil_of_empty wait_for_more max_wait now hevents_nil
  | some latest =>
    have hne_events : sortedBatch db source_type ≠ [] := by
      intro h
      rw [h] at hlast
      simp at hlast
    cases hhead : (sortedBatch db source_type).head? with
    | none =>
      exact absurd (List.head?_eq_none_iff.mp hhead) hne_events
    | some earliest =>
      have heq := batch_eq_of_some wait_for_more max_wait now hlast hhead
      have hpending_ne : pendingRows db source_type ≠ [] := by
        intro h
        apply hne_events
        rw [sortedBatch, h]
        rfl
      have hlatest_max : ∀ e ∈ sortedBatch db source_type,
          e.received_at ≤ latest.received_at := sorted_le_getLast hsorted hlast
      have hearliest_min : ∀ e ∈ sortedBatch db source_type,
          earliest.received_at ≤ e.received_at := head_le_sorted hsorted hhead
      have hlatest_mem : latest ∈ pendingRows db source_type :=
        (hmem latest).mp (List.mem_of_getLast?_eq_some hlast)
      have hearliest_mem : earliest ∈ pendingRows db source_type := by
        refine (hmem earliest).mp (List.mem_of_mem_head? ?_)
        rw [hhead]
        rfl
      constructor
      · rintro ⟨-, hcond⟩
        rw [heq]
        rcases hcond with hall | ⟨e, he, hlt⟩
        · have h1 : latest.received_at < now - wait_for_more := hall latest hlatest_mem
          rw [if_pos h1]
          exact ⟨hperm, hsorted⟩
        · by_cases h1 : latest.received_at < now - wait_for_more
          · rw [if_pos h1]; exact ⟨hperm, hsorted⟩
          · rw [if_neg h1]
            have h2 : earliest.received_at < now - max_wait :=
              lt_of_le_of_lt (hearliest_min e ((hmem e).mpr he)) hlt
            rw [if_pos h2]
            exact ⟨hperm, hsorted⟩
      · intro hncond
        rw [heq]
        by_cases h1 : latest.received_at < now - wait_for_more
        · exfalso
          apply hncond
          refine ⟨hpending_ne, Or.inl fun e he => ?_⟩
          exact lt_of_le_of_lt (hlatest_max e ((hmem e).mpr he)) h1
        · rw [if_neg h1]
          by_cases h2 : earliest.received_at < now - max_wait
          · exact absurd ⟨hpending_ne, Or.inr ⟨earliest, hearliest_mem, h2⟩⟩ hncond
          · rw [if_neg h2]

/-- Witness for C1 on a concrete store: two unprocessed rows, the batch is
released because the latest row is older than `wait_for_more`. -/
theorem c1_witness :
    (get_unprocessed_events_batch
        ⟨[⟨1, "scanner", "f1", "alice", 100, none, none, none, false, false, false⟩,
          ⟨2, "scanner", "f2", "bob", 50, none, none, none, false, false, false⟩],
         []⟩ 10 1000 "scanner" 2000).Perm
      (pendingRows
        ⟨[⟨1, "scanner", "f1", "alice", 100, none, none, none, false, false, false⟩,
          ⟨2, "scanner", "f2", "bob", 50, none, none, none, false, false, false⟩],
         []⟩ "scanner") ∧
    List.Sorted receivedLE
      (get_unprocessed_events_batch
        ⟨[⟨1, "scanner", "f1", "alice", 100, none, none, none, false, false, false⟩,
          ⟨2, "scanner", "f2", "bob", 50, none, none, none, false, false, false⟩],
         []⟩ 10 1000 "scanner" 2000) :=
  (c1_get_unprocessed_events_batch _ 10 1000 "scanner" 2000).1
    (by constructor
        · decide
        · left
          decide)

/-! ### Maximum of a list of values (`max(...)` over SQL aggregates) -/

/-- Maximum of a list of integers, `none` on the empty list (the SQL `MAX`
aggregate over a possibly empty result set, and the Python `max` builtin). -/
def listMax? : List Int → Option Int
  | [] => none
  | x :: xs =>
    match listMax? xs with
    | none => some x
    | some m => some (max x m)

theorem listMax?_eq_none_iff {l : List Int} : listMax? l = none ↔ l = [] := by
  cases l with
  | nil => simp [listMax?]
  | cons x xs =>
    simp only [listMax?]
    cases listMax? xs <;> simp

theorem listMax?_mem {l : List Int} {m : Int} (h : listMax? l = some m) : m ∈ l := by
  induction l generalizing m with
  | nil => simp [listMax?] at h
  | cons x xs ih =>
    simp only [listMax?] at h
    cases hxs : listMax? xs with
    | none =>
      rw [hxs] at h
      simp only [Option.some_inj] at h
      subst h
      exact List.mem_cons_self _ _
    | some m' =>
      rw [hxs] at h
      simp only [Option.some_inj] at h
      subst h
      rcases max_choice x m' with hmax | hmax <;> rw [hmax]
      · exact List.mem_cons_self _ _
      · exact List.mem_cons_of_mem _ (ih hxs)

theorem le_listMax? {l : List Int} {m : Int} (h : listMax? l = some m) :
    ∀ x ∈ l, x ≤ m := by
  induction l generalizing m with
  | nil => simp
  | cons a xs ih =>
    simp only [listMax?] at h
    cases hxs : listMax? xs with
    | none =>
      rw [hxs] at h
      simp only [Option.some_inj] at h
      subst h
      intro x hx
      rcases List.mem_cons.mp hx with hx | hx
      · subst hx; exact le_refl _
      · rw [listMax?_eq_none_iff.mp hxs] at hx
        simp at hx
    | some m' =>
      rw [hxs] at h
      simp only [Option.some_inj] at h
      subst h
      intro x hx
      rcases List.mem_cons.mp hx with hx | hx
      · subst hx; exact le_max_left _ _
      · exact le_trans (ih hxs x hx) (le_max_right _ _)

theorem listMax?_isSome_of_mem {l : List Int} {x : Int} (hx : x ∈ l) :
    ∃ m, listMax? l = some m := by
  cases hl : listMax? l with
  | none =>
    rw [listMax?_eq_none_iff.mp hl] at hx
    simp at hx
  | some m => exact ⟨m, rfl⟩

/-- The Python tail of `check_any_issue_needs_reminder`: if the aggregate
list is non-empty, compare its maximum against the bound, else `False`. -/
def pyMaxLeq (timestamps : List Int) (bound : Int) : Bool :=
  match listMax? timestamps with
  | some m => decide (m ≤ bound)
  | none => false

theorem pyMaxLeq_eq_true_iff {timestamps : List Int} {bound : Int} :
    pyMaxLeq timestamps bound = true ↔
      ∃ m, listMax? timestamps = some m ∧ m ≤ bound := by
  unfold pyMaxLeq
  cases h : listMax? timestamps with
  | none => simp
  | some m => simp

/-! ### `get_events_did_not_addressed` (claim C10) -/

/-- `DataStore.get_events_did_not_addressed` (`data_store.py`): rows with
`sent_at` set, `escalated_at` null and the given source type, restricted by
a LEFT OUTER JOIN with `ignore_fingerprint` on equal fingerprints followed
by `IgnoreFingerprintRecord.fingerprint IS NULL` — i.e. kept only when no
ignore record whatsoever (of any type, expired or not) exists for the
fingerprint. -/
def get_events_did_not_addressed (db : DB) (source_type : String) : List EventRecord :=
  db.events.filter (fun e =>
    e.sent_at.isSome && e.escalated_at.isNone && e.source_type == source_type &&
      !(db.ignores.any (fun i => i.fingerprint == e.fingerprint)))

/-- C10.  A sent, non-escalated row whose fingerprint has *any* ignore
record — in particular one whose `expires_at` already lies in the past — is
never returned by `get_events_did_not_addressed`: the anti-join checks only
fingerprint equality, never `expires_at`. -/
theorem c10_ignored_event_never_unaddressed (db : DB) (source_type : String)
    (e : EventRecord) (hsent : e.sent_at.isSome) (hesc : e.escalated_at = none)
    (hig : ∃ i ∈ db.ignores, i.fingerprint = e.fingerprint) :
    e ∉ get_events_did_not_addressed db source_type := by
  intro hmem
  simp only [get_events_did_not_addressed, List.mem_filter, Bool.and_eq_true,
    Bool.not_eq_true'] at hmem
  obtain ⟨-, ⟨-, hany⟩⟩ := hmem
  obtain ⟨i, hi, hfp⟩ := hig
  have htrue : db.ignores.any (fun i => i.fingerprint == e.fingerprint) = true :=
    List.any_eq_true.mpr ⟨i, hi, by simp [hfp]⟩
  rw [htrue] at hany
  exact Bool.noConfusion hany

/-- Witness for C10: a row sent at time 10, never escalated, with a snooze
record that expired at time 20 (now = 100): the row is still excluded. -/
theorem c10_witness :
    (⟨1, "rt", "f1", "alice", 5, some 10, none, none, false, false, false⟩ : EventRecord).sent_at.isSome = true ∧
    (⟨1, "rt", "f1", "alice", 5, some 10, none, none, false, false, false⟩ : EventRecord).escalated_at = none ∧
    (⟨1, "rt", "f1", "alice", 5, some 10, none, none, false, false, false⟩ : EventRecord) ∉
      get_events_did_not_addressed
        ⟨[⟨1, "rt", "f1", "alice", 5, some 10, none, none, false, false, false⟩],
         [⟨1, "f1", "snooze", 15, some 20⟩]⟩ "rt" :=
  ⟨rfl, rfl,
    c10_ignored_event_never_unaddressed _ "rt" _ rfl rfl
      ⟨⟨1, "f1", "snooze", 15, some 20⟩, by decide, rfl⟩⟩

/-! ### `check_any_issue_needs_reminder` (claim C3) -/

/-- The rows matched by the reminder query:
`fingerprint IN (records' fingerprints) AND sent_at IS NOT NULL`. -/
def reminderMatched (db : DB) (records : List EventRecord) : List EventRecord :=
  db.events.filter (fun e =>
    (records.map (fun r => r.fingerprint)).contains e.fingerprint && e.sent_at.isSome)

/-- The `SELECT max(sent_at) ... GROUP BY fingerprint` aggregate: one
maximal `sent_at` per distinct fingerprint occurring in the matched rows. -/
def reminderTimestamps (db : DB) (records : List EventRecord) : List Time :=
  ((reminderMatched db records).map (fun e => e.fingerprint)).dedup.filterMap
    (fun fp =>
      listMax? (((reminderMatched db records).filter (fun e => e.fingerprint == fp)).filterMap
        (fun e => e.sent_at)))

/-- `DataStore.check_any_issue_needs_reminder` (`data_store.py`): the
per-fingerprint maxima of `sent_at` are computed by the grouped query; the
Python code then takes `max(timestamps)` — the maximum over *all* groups —
and compares that single value against `now - search_timedelta`; `False`
when the aggregate is empty. -/
def check_any_issue_needs_reminder (db : DB) (search_timedelta : Timedelta)
    (records : List EventRecord) (now : Time) : Bool :=
  pyMaxLeq (reminderTimestamps db records) (now - search_timedelta)

/-- Modelled from the spec claim (C3): a single fingerprint needs a
reminder when some row with that fingerprint has a non-null `sent_at` and
the most recent `sent_at` among them is older than `now - cadence`. -/
def fingerprintNeedsReminder (db : DB) (search_timedelta : Timedelta)
    (fp : String) (now : Time) : Bool :=
  match listMax? ((db.events.filter (fun e => e.fingerprint == fp)).filterMap
      (fun e => e.sent_at)) with
  | some t => decide (t ≤ now - search_timedelta)
  | none => false

/-- Modelled from the spec claim (C3): *some* fingerprint among the given
records needs a reminder.  This is the claimed (existential) semantics,
compared against the implementation above. -/
def claimAnyNeedsReminder (db : DB) (search_timedelta : Timedelta)
    (records : List EventRecord) (now : Time) : Bool :=
  records.any (fun r => fingerprintNeedsReminder db search_timedelta r.fingerprint now)

/-- C3, counterexample.  Two fingerprints: `f2` was last sent at time 10,
far older than `now - cadence = 50`, so under the claimed existential
semantics a reminder is due; but `f1` was last sent at time 90, and the
code compares only the *global* maximum (90) against the bound, returning
`false`.  The repository's own test (`test_check_any_issue_needs_reminder`,
part 2) pins this max-over-all-fingerprints behaviour. -/
theorem c3_counterexample :
    claimAnyNeedsReminder
        ⟨[⟨1, "st", "f1", "alice", 1, some 90, none, none, false, false, false⟩,
          ⟨2, "st", "f2", "alice", 2, some 10, none, none, false, false, false⟩],
         []⟩ 50
        [⟨1, "st", "f1", "alice", 1, some 90, none, none, false, false, false⟩,
         ⟨2, "st", "f2", "alice", 2, some 10, none, none, false, false, false⟩] 100 = true ∧
    check_any_issue_needs_reminder
        ⟨[⟨1, "st", "f1", "alice", 1, some 90, none, none, false, false, false⟩,
          ⟨2, "st", "f2", "alice", 2, some 10, none, none, false, false, false⟩],
         []⟩ 50
        [⟨1, "st", "f1", "alice", 1, some 90, none, none, false, false, false⟩,
         ⟨2, "st", "f2", "alice", 2, some 10, none, none, false, false, false⟩] 100 = false := by
  constructor <;> rfl

/-- C3, amended.  `check_any_issue_needs_reminder` returns `true` iff at
least one row with a fingerprint of the given records has a non-null
`sent_at`, and *every* such row (hence the most recent `sent_at` across
*all* those fingerprints together) is older than `now - search_timedelta`.
A fingerprint all of whose rows have null `sent_at` contributes nothing and
so never causes the result to be `true` on its own. -/
theorem c3_amended (db : DB) (search_timedelta : Timedelta)
    (records : List EventRecord) (now : Time) :
    check_any_issue_needs_reminder db search_timedelta records now = true ↔
      ((∃ e ∈ db.events, e.fingerprint ∈ records.map (fun r => r.fingerprint) ∧
          e.sent_at.isSome) ∧
       (∀ e ∈ db.events, e.fingerprint ∈ records.map (fun r => r.fingerprint) →
          ∀ t, e.sent_at = some t → t ≤ now - search_timedelta)) := by
  have hmemM : ∀ e : EventRecord, e ∈ reminderMatched db records ↔
      e ∈ db.events ∧ e.fingerprint ∈ records.map (fun r => r.fingerprint) ∧
        e.sent_at.isSome = true := by
    intro e
    simp [reminderMatched, List.mem_filter]
  have hmemT : ∀ t : Time, t ∈ reminderTimestamps db records ↔
      ∃ fp, fp ∈ ((reminderMatched db records).map (fun e => e.fingerprint)).dedup ∧
        listMax? (((reminderMatched db records).filter
            (fun e => e.fingerprint == fp)).filterMap (fun e => e.sent_at)) = some t := by
    intro t
    simp [reminderTimestamps, List.mem_filterMap]
  -- every matched row's sent_at value is bounded by some element of the aggregate
  have hcover : ∀ e ∈ reminderMatched db records, ∀ t, e.sent_at = some t →
      ∃ g ∈ reminderTimestamps db records, t ≤ g := by
    intro e he t ht
    have hgrp : t ∈ ((reminderMatched db records).filter
        (fun x => x.fingerprint == e.fingerprint)).filterMap (fun x => x.sent_at) := by
      refine List.mem_filterMap.mpr ⟨e, ?_, ht⟩
      refine List.mem_filter.mpr ⟨he, ?_⟩
      simp
    obtain ⟨g, hg⟩ := listMax?_isSome_of_mem hgrp
    have hfp_dedup : e.fingerprint ∈
        ((reminderMatched db records).map (fun x => x.fingerprint)).dedup :=
      List.mem_dedup.mpr (List.mem_map.mpr ⟨e, he, rfl⟩)
    refine ⟨g, (hmemT g).mpr ⟨e.fingerprint, hfp_dedup, hg⟩, le_listMax? hg t hgrp⟩
  -- every element of the aggregate is the sent_at value of some matched row
  have hback : ∀ g ∈ reminderTimestamps db records,
      ∃ e ∈ reminderMatched db records, e.sent_at = some g := by
    intro g hg
    obtain ⟨fp, -, hmax⟩ := (hmemT g).mp hg
    have hgmem := listMax?_mem hmax
    obtain ⟨e, he, hsent⟩ := List.mem_filterMap.mp hgmem
    exact ⟨e, (List.mem_filter.mp he).1, hsent⟩
  unfold check_any_issue_needs_reminder
  rw [pyMaxLeq_eq_true_iff]
  constructor
  · rintro ⟨m, hm, hmb⟩
    obtain ⟨e0, he0, hsent0⟩ := hback m (listMax?_mem hm)
    have he0' := (hmemM e0).mp he0
    refine ⟨⟨e0, he0'.1, he0'.2.1, he0'.2.2⟩, ?_⟩
    intro e he hfp t ht
    have heM : e ∈ reminderMatched db records :=
      (hmemM e).mpr ⟨he, hfp, by rw [ht]; rfl⟩
    obtain ⟨g, hgT, htg⟩ := hcover e heM t ht
    exact le_trans htg (le_trans (le_listMax? hm g hgT) hmb)
  · rintro ⟨⟨e0, he0, hfp0, hsome0⟩, hall⟩
    obtain ⟨t0, ht0⟩ := Option.isSome_iff_exists.mp hsome0
    have he0M : e0 ∈ reminderMatched db records := (hmemM e0).mpr ⟨he0, hfp0, hsome0⟩
    obtain ⟨g0, hg0T, -⟩ := hcover e0 he0M t0 ht0
    obtain ⟨m, hm⟩ := listMax?_isSome_of_mem hg0T
    refine ⟨m, hm, ?_⟩
    obtain ⟨e, he, hsent⟩ := hback m (listMax?_mem hm)
    have he' := (hmemM e).mp he
    exact hall e he'.1 he'.2.1 m hsent

/-! ### `may_send_escalation` (claim C7) -/

/-- `DataStore.may_send_escalation` (`data_store.py`).  The query selects
`escalated_at` of rows of the source type, ordered descending (SQL sorts
NULLs last in descending order) with `LIMIT 1`, via `one_or_none()`:
* no row of the source type at all — `one_or_none()` returns `None` and the
  subsequent `last_escalated[0]` raises
  `TypeError: NoneType is not subscriptable`;
* rows exist but none was ever escalated — the top row carries NULL and
  `if not last_escalated[0]` returns `True`;
* otherwise the maximal `escalated_at` is compared with `now - cadence`. -/
def may_send_escalation (db : DB) (source_type : String)
    (escalation_reminder_cadence : Timedelta) (now : Time) : Except String Bool :=
  if (db.events.filter (fun e => e.source_type == source_type)).isEmpty then
    Except.error "TypeError: NoneType object is not subscriptable"
  else
    match listMax? ((db.events.filter (fun e => e.source_type == source_type)).filterMap
        (fun e => e.escalated_at)) with
    | none => Except.ok true
    | some t => Except.ok (decide (t ≤ now - escalation_reminder_cadence))

/-- C7, counterexample.  On a store holding no row of the source type at
all, the claim says `may_send_escalation` returns true; the code instead
subscripts the `None` returned by `one_or_none()` and raises a
`TypeError`. -/
theorem c7_counterexample :
    may_send_escalation ⟨[], []⟩ "type1" 604800 1000000 =
        Except.error "TypeError: NoneType object is not subscriptable" ∧
    may_send_escalation ⟨[], []⟩ "type1" 604800 1000000 ≠ Except.ok true :=
  ⟨rfl, fun h => Except.noConfusion h⟩

/-- C7, amended.  Provided at least one row of the source type exists,
`may_send_escalation` returns `ok` of: no row of the source type has an
`escalated_at` within the last `escalation_reminder_cadence` (in particular
`true` when rows exist but none was ever escalated).  When no row of the
source type exists it raises instead of returning true. -/
theorem c7_may_send_escalation_amended (db : DB) (source_type : String)
    (escalation_reminder_cadence : Timedelta) (now : Time)
    (hrows : ∃ e ∈ db.events, e.source_type = source_type) :
    may_send_escalation db source_type escalation_reminder_cadence now =
      Except.ok (decide (∀ e ∈ db.events, e.source_type = source_type →
        ∀ t, e.escalated_at = some t → t ≤ now - escalation_reminder_cadence)) := by
  have hne : ¬ (db.events.filter (fun e => e.source_type == source_type)).isEmpty = true := by
    obtain ⟨e, he, hst⟩ := hrows
    have hmem : e ∈ db.events.filter (fun x => x.source_type == source_type) :=
      List.mem_filter.mpr ⟨he, by simp [hst]⟩
    intro hempty
    rw [List.isEmpty_iff] at hempty
    rw [hempty] at hmem
    simp at hmem
  unfold may_send_escalation
  rw [if_neg hne]
  have hmemF : ∀ t : Time,
      t ∈ (db.events.filter (fun e => e.source_type == source_type)).filterMap
          (fun e => e.escalated_at) ↔
        ∃ e ∈ db.events, e.source_type = source_type ∧ e.escalated_at = some t := by
    intro t
    simp [List.mem_filterMap, List.mem_filter]
    constructor
    · rintro ⟨e, ⟨he, hst⟩, hesc⟩
      exact ⟨e, he, hst, hesc⟩
    · rintro ⟨e, he, hst, hesc⟩
      exact ⟨e, ⟨he, hst⟩, hesc⟩
  cases hmax : listMax? ((db.events.filter (fun e => e.source_type == source_type)).filterMap
      (fun e => e.escalated_at)) with
  | none =>
    have hnone : ∀ e ∈ db.events, e.source_type = source_type →
        ∀ t, e.escalated_at = some t → t ≤ now - escalation_reminder_cadence := by
      intro e he hst t hesc
      exfalso
      have ht : t ∈ (db.events.filter (fun x => x.source_type == source_type)).filterMap
          (fun x => x.escalated_at) := (hmemF t).mpr ⟨e, he, hst, hesc⟩
      rw [listMax?_eq_none_iff.mp hmax] at ht
      simp at ht
    simp only [decide_eq_true hnone]
  | some m =>
    have hiff : (m ≤ now - escalation_reminder_cadence) ↔
        (∀ e ∈ db.events, e.source_type = source_type →
          ∀ t, e.escalated_at = some t → t ≤ now - escalation_reminder_cadence) := by
      constructor
      · intro hmb e he hst t hesc
        exact le_trans (le_listMax? hmax t ((hmemF t).mpr ⟨e, he, hst, hesc⟩)) hmb
      · intro hall
        obtain ⟨e, he, hst, hesc⟩ := (hmemF m).mp (listMax?_mem hmax)
        exact hall e he hst m hesc
    exact congrArg Except.ok (decide_eq_decide.mpr hiff)

/-- Witness for C7 (amended) on a concrete store: one row of the source
type, escalated 8 days before `now`, cadence 7 days — escalation allowed. -/
theorem c7_witness :
    (∃ e ∈ [(⟨1, "type1", "f1", "alice", 0, some 5, some 172800, some 6,
        false, false, false⟩ : EventRecord)], e.source_type = "type1") ∧
    may_send_escalation
        ⟨[⟨1, "type1", "f1", "alice", 0, some 5, some 172800, some 6,
           false, false, false⟩], []⟩ "type1" 604800 864000 =
      Except.ok (decide (∀ e ∈ [(⟨1, "type1", "f1", "alice", 0, some 5, some 172800, some 6,
          false, false, false⟩ : EventRecord)], e.source_type = "type1" →
        ∀ t, e.escalated_at = some t → t ≤ 864000 - 604800)) :=
  ⟨⟨_, List.mem_cons_self _ _, rfl⟩,
    c7_may_send_escalation_amended
      ⟨[⟨1, "type1", "f1", "alice", 0, some 5, some 172800, some 6,
         false, false, false⟩], []⟩ "type1" 604800 864000
      ⟨_, List.mem_cons_self _ _, rfl⟩⟩

/-! ### Minimum of a list of values (oldest row queries) -/

/-- Minimum of a list of integers, `none` on the empty list
(`ORDER BY received_at ASC LIMIT 1` with `one_or_none()`). -/
def listMin? : List Int → Option Int
  | [] => none
  | x :: xs =>
    match listMin? xs with
    | none => some x
    | some m => some (min x m)

/-! ### Remaining `DataStore` reads used by the scheduler -/

/-- `DataStore.fingerprint_is_ignored` (`data_store.py`): at least one
ignore record for the fingerprint whose `expires_at` is in the future or
NULL. -/
def fingerprint_is_ignored (db : DB) (fp : String) (now : Time) : Bool :=
  decide (1 ≤ (db.ignores.filter (fun i =>
    i.fingerprint == fp &&
      (match i.expires_at with
       | some t => decide (now < t)
       | none => true))).length)

/-- `DataStore.check_if_new` (`data_store.py`): `true` when no *processed*
row with the fingerprint exists, or the most recently received one is older
than `new_threshold`. -/
def check_if_new (db : DB) (fp : String) (new_threshold : Timedelta) (now : Time) : Bool :=
  match listMax? ((db.events.filter (fun e => e.fingerprint == fp && e.processed_at.isSome)).map
      (fun e => e.received_at)) with
  | none => true
  | some t => decide (t ≤ now - new_threshold)

/-- `DataStore.check_needs_escalation` (`data_store.py`): the oldest row
sharing the event's fingerprint was received more than `escalation_time`
ago; `false` when no such row exists. -/
def check_needs_escalation (db : DB) (escalation_time : Timedelta)
    (event : EventRecord) (now : Time) : Bool :=
  match listMin? ((db.events.filter (fun e => e.fingerprint == event.fingerprint)).map
      (fun e => e.received_at)) with
  | none => false
  | some t => decide (t ≤ now - escalation_time)

/-- `DataStore.check_if_previously_escalated` (`data_store.py`): some row
sharing the fingerprint has `escalated_at` set. -/
def check_if_previously_escalated (db : DB) (event : EventRecord) : Bool :=
  decide (1 ≤ (db.events.filter (fun e =>
    e.fingerprint == event.fingerprint && e.escalated_at.isSome)).length)

/-! ### Timestamp bulk updates (`update_timestamp_column_to_now`) -/

/-- `DataStore.update_sent_at_timestamp_to_now`: bulk-set `sent_at` to now
on the rows whose `id` occurs among the given records. -/
def update_sent_at (db : DB) (records : List EventRecord) (now : Time) : DB :=
  { db with events := db.events.map (fun e =>
      if records.any (fun r => r.id == e.id) then { e with sent_at := some now } else e) }

/-- `DataStore.update_processed_at_timestamp_to_now`. -/
def update_processed_at (db : DB) (records : List EventRecord) (now : Time) : DB :=
  { db with events := db.events.map (fun e =>
      if records.any (fun r => r.id == e.id) then { e with processed_at := some now } else e) }

/-- `DataStore.update_event_escalated_at_to_now`. -/
def update_escalated_at (db : DB) (records : List EventRecord) (now : Time) : DB :=
  { db with events := db.events.map (fun e =>
      if records.any (fun r => r.id == e.id) then { e with escalated_at := some now } else e) }

/-! ### The registration registry (`SourceTypeFunction`) -/

/-- `SourceTypeFunction` (`app.py`): functions registered for specific
source types plus a global bucket.  The registered router/escalator
functions themselves are opaque; they are modelled by identifiers so that
invocations can be traced. -/
structure SourceTypeFunction where
  specific_collection : List (String × List Nat)
  global_collection : List Nat
  deriving DecidableEq, Repr

/-- `SourceTypeFunction.for_source_type`: all functions applicable to a
source type — the specific ones first, then the global ones. -/
def for_source_type (stf : SourceTypeFunction) (source_type : String) : List Nat :=
  ((stf.specific_collection.lookup source_type).getD []) ++ stf.global_collection

/-- One invocation `route_func(source_type, owner, events)` of a registered
router. -/
structure RouterCall where
  router : Nat
  source_type : String
  owner : String
  events : List EventRecord
  deriving DecidableEq, Repr

/-- One invocation `escalator_func(source_type, events)` of a registered
escalator. -/
structure EscalatorCall where
  escalator : Nat
  source_type : String
  events : List EventRecord
  deriving DecidableEq, Repr

/-- `Comet._route_events` (`app.py`): invoke every router applicable to the
source type with `(source_type, owner, events)`, then stamp
`sent_at = now` on all the events. -/
def route_events (db : DB) (routers : SourceTypeFunction) (owner : String)
    (events : List EventRecord) (source_type : String) (now : Time) :
    List RouterCall × DB :=
  ((for_source_type routers source_type).map (fun r =>
      { router := r, source_type := source_type, owner := owner, events := events }),
   update_sent_at db events now)

/-- `Comet._handle_events_need_escalation` (`app.py`): when the list is
non-empty, invoke every escalator applicable to the source type with
`(source_type, events)` and stamp `escalated_at = now` on all the events —
also when zero escalators are registered (`did_escalate` stays false, a
warning is logged, and the stamp still happens). -/
def handle_events_need_escalation (db : DB) (escalators : SourceTypeFunction)
    (source_type : String) (needs_escalation_events : List EventRecord) (now : Time) :
    List EscalatorCall × DB :=
  if needs_escalation_events.isEmpty then ([], db)
  else
    ((for_source_type escalators source_type).map (fun f =>
        { escalator := f, source_type := source_type, events := needs_escalation_events }),
     update_escalated_at db needs_escalation_events now)

/-- C5.  For a non-empty event list, `_handle_events_need_escalation`
invokes every escalator registered for the source type (specific plus
global, possibly zero of them) with `(source_type, events)`, and stamps
`escalated_at = now` on exactly the rows whose id occurs among the events —
the zero-escalator case still stamps, so the events are consumed. -/
theorem c5_handle_events_need_escalation (db : DB) (escalators : SourceTypeFunction)
    (source_type : String) (events : List EventRecord) (now : Time)
    (hne : events ≠ []) :
    (handle_events_need_escalation db escalators source_type events now).1 =
      (for_source_type escalators source_type).map (fun f =>
        { escalator := f, source_type := source_type, events := events }) ∧
    (∀ row ∈ db.events, (∃ r ∈ events, r.id = row.id) →
      { row with escalated_at := some now } ∈
        (handle_events_need_escalation db escalators source_type events now).2.events) ∧
    (∀ row ∈ db.events, (¬ ∃ r ∈ events, r.id = row.id) →
      row ∈ (handle_events_need_escalation db escalators source_type events now).2.events) := by
  have hnot : events.isEmpty = false := by
    cases events with
    | nil => exact absurd rfl hne
    | cons a t => rfl
  unfold handle_events_need_escalation
  rw [hnot]
  simp only [Bool.false_eq_true, if_false]
  refine ⟨by trivial, ?_, ?_⟩
  · intro row hrow ⟨r, hr, hid⟩
    refine List.mem_map.mpr ⟨row, hrow, ?_⟩
    rw [if_pos (List.any_eq_true.mpr ⟨r, hr, by simp [hid]⟩)]
  · intro row hrow hnone
    refine List.mem_map.mpr ⟨row, hrow, ?_⟩
    rw [if_neg]
    intro hany
    obtain ⟨r, hr, hid⟩ := List.any_eq_true.mp hany
    exact hnone ⟨r, hr, by simpa using hid⟩

/-- Witness for C5, with *zero* registered escalators: the call list is
empty and the single event row is still stamped `escalated_at = now`. -/
theorem c5_witness :
    (handle_events_need_escalation
        ⟨[⟨1, "st", "f1", "alice", 5, some 10, none, none, false, false, false⟩], []⟩
        ⟨[], []⟩ "st"
        [⟨1, "st", "f1", "alice", 5, some 10, none, none, false, true, true⟩] 99).1 = [] ∧
    (⟨1, "st", "f1", "alice", 5, some 10, some 99, none, false, false, false⟩ : EventRecord) ∈
      (handle_events_need_escalation
        ⟨[⟨1, "st", "f1", "alice", 5, some 10, none, none, false, false, false⟩], []⟩
        ⟨[], []⟩ "st"
        [⟨1, "st", "f1", "alice", 5, some 10, none, none, false, true, true⟩] 99).2.events :=
  ⟨(c5_handle_events_need_escalation _ ⟨[], []⟩ "st" _ 99 (by simp)).1,
   (c5_handle_events_need_escalation _ ⟨[], []⟩ "st" _ 99 (by simp)).2.1
     ⟨1, "st", "f1", "alice", 5, some 10, none, none, false, false, false⟩
     (List.mem_cons_self _ _)
     ⟨⟨1, "st", "f1", "alice", 5, some 10, none, none, false, true, true⟩,
      List.mem_cons_self _ _, rfl⟩⟩

/-! ### The digest-mode owner-group loop (claim C2) -/

/-- The body of the owner-group loop of `Comet.process_unprocessed_events`
(`app.py`, digest branch): route the group through `_route_events` iff some
event of the group carries the `new` flag or
`check_any_issue_needs_reminder` holds for the group, then always stamp
`processed_at = now` on the group. -/
def process_owner_group (db : DB) (routers : SourceTypeFunction)
    (owner_reminder_cadence : Timedelta) (owner : String)
    (events : List EventRecord) (source_type : String) (now : Time) :
    List RouterCall × DB :=
  if events.any (fun e => e.new) ||
      check_any_issue_needs_reminder db owner_reminder_cadence events now then
    let rd := route_events db routers owner events source_type now
    (rd.1, update_processed_at rd.2 events now)
  else
    ([], update_processed_at db events now)

/-- One iteration of the owner-group loop: run the body on the current
store and accumulate the router invocations. -/
def pog_step (routers : SourceTypeFunction) (owner_reminder_cadence : Timedelta)
    (source_type : String) (now : Time) (acc : List RouterCall × DB)
    (g : String × List EventRecord) : List RouterCall × DB :=
  let r := process_owner_group acc.2 routers owner_reminder_cadence g.1 g.2 source_type now
  (acc.1 ++ r.1, r.2)

/-- The owner-group loop itself: fold the body over the groups in order,
threading the store (each group's reminder check sees the `sent_at` stamps
of the groups processed before it). -/
def process_owner_groups (db : DB) (routers : SourceTypeFunction)
    (owner_reminder_cadence : Timedelta)
    (groups : List (String × List EventRecord)) (source_type : String) (now : Time) :
    List RouterCall × DB :=
  groups.foldl (pog_step routers owner_reminder_cadence source_type now) ([], db)

/-- C2.  For an owner group in a digest pass: every applicable router
(specific plus global) is invoked on the group exactly when some event of
the group is `new` or the group needs a reminder; when routed, every row of
the group gets `sent_at = now` — not only the new ones — and every row of
the group gets `processed_at = now` whether or not the group was routed. -/
theorem c2_process_owner_group (db : DB) (routers : SourceTypeFunction)
    (owner_reminder_cadence : Timedelta) (owner : String)
    (events : List EventRecord) (source_type : String) (now : Time) :
    ((process_owner_group db routers owner_reminder_cadence owner events source_type now).1 =
      if events.any (fun e => e.new) ||
          check_any_issue_needs_reminder db owner_reminder_cadence events now then
        (for_source_type routers source_type).map (fun r =>
          { router := r, source_type := source_type, owner := owner, events := events })
      else []) ∧
    (∀ row ∈ db.events, (∃ r ∈ events, r.id = row.id) →
      { row with
          sent_at := if events.any (fun e => e.new) ||
              check_any_issue_needs_reminder db owner_reminder_cadence events now then
            some now else row.sent_at,
          processed_at := some now } ∈
        (process_owner_group db routers owner_reminder_cadence owner events source_type now).2.events) := by
  by_cases hc : (events.any (fun e => e.new) ||
      check_any_issue_needs_reminder db owner_reminder_cadence events now) = true
  · constructor
    · rw [hc]
      simp only [process_owner_group, hc, if_true]
      rfl
    · intro row hrow ⟨r, hr, hid⟩
      simp only [process_owner_group, hc, if_true]
      have hany : events.any (fun x => x.id == row.id) = true :=
        List.any_eq_true.mpr ⟨r, hr, by simp [hid]⟩
      simp only [route_events, update_processed_at, update_sent_at]
      refine List.mem_map.mpr ⟨{ row with sent_at := some now }, ?_, ?_⟩
      · exact List.mem_map.mpr ⟨row, hrow, by rw [if_pos hany]⟩
      · rw [if_pos hany]
  · rw [Bool.not_eq_true] at hc
    constructor
    · rw [hc]
      simp only [process_owner_group, hc, Bool.false_eq_true, if_false]
    · intro row hrow ⟨r, hr, hid⟩
      simp only [process_owner_group, hc, Bool.false_eq_true, if_false]
      have hany : events.any (fun x => x.id == row.id) = true :=
        List.any_eq_true.mpr ⟨r, hr, by simp [hid]⟩
      simp only [update_processed_at]
      exact List.mem_map.mpr ⟨row, hrow, by rw [if_pos hany]⟩

/-- Witness for C2 on a concrete group: one `new` event, one specific and
one global router; both are invoked and the row ends up with both
`sent_at` and `processed_at` stamped. -/
theorem c2_witness :
    (process_owner_group
        ⟨[⟨1, "st", "f1", "alice", 5, none, none, none, false, false, false⟩], []⟩
        ⟨[("st", [7])], [8]⟩ 100 "alice"
        [⟨1, "st", "f1", "alice", 5, none, none, none, true, false, false⟩] "st" 50).1 =
      [{ router := 7, source_type := "st", owner := "alice",
         events := [⟨1, "st", "f1", "alice", 5, none, none, none, true, false, false⟩] },
       { router := 8, source_type := "st", owner := "alice",
         events := [⟨1, "st", "f1", "alice", 5, none, none, none, true, false, false⟩] }] ∧
    (⟨1, "st", "f1", "alice", 5, some 50, none, some 50, false, false, false⟩ : EventRecord) ∈
      (process_owner_group
        ⟨[⟨1, "st", "f1", "alice", 5, none, none, none, false, false, false⟩], []⟩
        ⟨[("st", [7])], [8]⟩ 100 "alice"
        [⟨1, "st", "f1", "alice", 5, none, none, none, true, false, false⟩] "st" 50).2.events := by
  constructor
  · have h := (c2_process_owner_group
      ⟨[⟨1, "st", "f1", "alice", 5, none, none, none, false, false, false⟩], []⟩
      ⟨[("st", [7])], [8]⟩ 100 "alice"
      [⟨1, "st", "f1", "alice", 5, none, none, none, true, false, false⟩] "st" 50).1
    rw [h]
    rfl
  · have h := (c2_process_owner_group
      ⟨[⟨1, "st", "f1", "alice", 5, none, none, none, false, false, false⟩], []⟩
      ⟨[("st", [7])], [8]⟩ 100 "alice"
      [⟨1, "st", "f1", "alice", 5, none, none, none, true, false, false⟩] "st" 50).2
      ⟨1, "st", "f1", "alice", 5, none, none, none, false, false, false⟩
      (List.mem_cons_self _ _)
      ⟨⟨1, "st", "f1", "alice", 5, none, none, none, true, false, false⟩,
       List.mem_cons_self _ _, rfl⟩
    simpa using h

/-! ### The digest-mode classification loop (claim C4) -/

/-- The accumulators of the digest branch of
`Comet.process_unprocessed_events`: `ignored_events`,
`events_by_owner` (an insertion-ordered dict), `need_escalation_events`,
plus a trace of which event ids were submitted to `check_if_new` and
`check_needs_escalation`. -/
structure Classified where
  ignored : List EventRecord
  events_by_owner : List (String × List EventRecord)
  need_escalation : List EventRecord
  checked_new : List Nat
  checked_escalation : List Nat
  deriving DecidableEq, Repr

/-- `events_by_owner.setdefault(owner, []).append(event)`: append to the
existing owner group, or add a new group at the end. -/
def dict_append (groups : List (String × List EventRecord)) (owner : String)
    (e : EventRecord) : List (String × List EventRecord) :=
  match groups with
  | [] => [(owner, [e])]
  | (o, es) :: rest =>
    if o == owner then (o, es ++ [e]) :: rest
    else (o, es) :: dict_append rest owner e

/-- The body of the classification loop (`app.py`, digest branch): an
ignored event goes to `ignored_events` untouched; otherwise the `new` flag
is computed via `check_if_new`, `needs_escalation` via
`check_needs_escalation` (recording both lookups in the trace), possibly
`first_escalation`, and the event is grouped under its owner. -/
def classify_step (db : DB) (new_threshold escalation_time : Timedelta) (now : Time)
    (acc : Classified) (event : EventRecord) : Classified :=
  if fingerprint_is_ignored db event.fingerprint now then
    { acc with ignored := acc.ignored ++ [event] }
  else
    let e1 := { event with
      new := check_if_new db event.fingerprint new_threshold now,
      needs_escalation := false }
    let acc1 := { acc with
      checked_new := acc.checked_new ++ [event.id],
      checked_escalation := acc.checked_escalation ++ [event.id] }
    if check_needs_escalation db escalation_time e1 now then
      let e2 := { e1 with
        needs_escalation := true,
        first_escalation := ! check_if_previously_escalated db e1 }
      { acc1 with
        need_escalation := acc1.need_escalation ++ [e2],
        events_by_owner := dict_append acc1.events_by_owner e2.owner e2 }
    else
      { acc1 with events_by_owner := dict_append acc1.events_by_owner e1.owner e1 }

/-- The classification loop over the whole batch. -/
def classify_batch (db : DB) (new_threshold escalation_time : Timedelta) (now : Time)
    (batch : List EventRecord) : Classified :=
  batch.foldl (classify_step db new_threshold escalation_time now)
    ⟨[], [], [], [], []⟩

/-! #### Step lemmas for the classification loop -/

theorem classify_step_ignored (db : DB) (nt et : Timedelta) (now : Time)
    (acc : Classified) (event : EventRecord) :
    (classify_step db nt et now acc event).ignored =
      if fingerprint_is_ignored db event.fingerprint now then acc.ignored ++ [event]
      else acc.ignored := by
  unfold classify_step
  by_cases h : fingerprint_is_ignored db event.fingerprint now = true
  · rw [if_pos h, if_pos h]
  · rw [if_neg h, if_neg h]
    by_cases h2 : check_needs_escalation db et
        { event with new := check_if_new db event.fingerprint nt now,
                     needs_escalation := false } now = true
    · rw [if_pos h2]
    · rw [if_neg h2]

theorem classify_step_checked_new (db : DB) (nt et : Timedelta) (now : Time)
    (acc : Classified) (event : EventRecord) :
    (classify_step db nt et now acc event).checked_new =
      if fingerprint_is_ignored db event.fingerprint now then acc.checked_new
      else acc.checked_new ++ [event.id] := by
  unfold classify_step
  by_cases h : fingerprint_is_ignored db event.fingerprint now = true
  · rw [if_pos h, if_pos h]
  · rw [if_neg h, if_neg h]
    by_cases h2 : check_needs_escalation db et
        { event with new := check_if_new db event.fingerprint nt now,
                     needs_escalation := false } now = true
    · rw [if_pos h2]
    · rw [if_neg h2]

theorem classify_step_checked_escalation (db : DB) (nt et : Timedelta) (now : Time)
    (acc : Classified) (event : EventRecord) :
    (classify_step db nt et now acc event).checked_escalation =
      if fingerprint_is_ignored db event.fingerprint now then acc.checked_escalation
      else acc.checked_escalation ++ [event.id] := by
  unfold classify_step
  by_cases h : fingerprint_is_ignored db event.fingerprint now = true
  · rw [if_pos h, if_pos h]
  · rw [if_neg h, if_neg h]
    by_cases h2 : check_needs_escalation db et
        { event with new := check_if_new db event.fingerprint nt now,
                     needs_escalation := false } now = true
    · rw [if_pos h2]
    · rw [if_neg h2]

theorem classify_step_need_escalation_mem (db : DB) (nt et : Timedelta) (now : Time)
    (acc : Classified) (event : EventRecord) {ev : EventRecord}
    (hmem : ev ∈ (classify_step db nt et now acc event).need_escalation) :
    ev ∈ acc.need_escalation ∨
      (fingerprint_is_ignored db event.fingerprint now = false ∧ ev.id = event.id) := by
  unfold classify_step at hmem
  by_cases h : fingerprint_is_ignored db event.fingerprint now = true
  · rw [if_pos h] at hmem
    exact Or.inl hmem
  · rw [if_neg h] at hmem
    by_cases h2 : check_needs_escalation db et
        { event with new := check_if_new db event.fingerprint nt now,
                     needs_escalation := false } now = true
    · rw [if_pos h2] at hmem
      simp only [List.mem_append, List.mem_singleton] at hmem
      rcases hmem with hmem | hmem
      · exact Or.inl hmem
      · subst hmem
        exact Or.inr ⟨Bool.not_eq_true _ ▸ h, rfl⟩
    · rw [if_neg h2] at hmem
      exact Or.inl hmem

theorem dict_append_mem {groups : List (String × List EventRecord)} {owner : String}
    {e : EventRecord} {g : String × List EventRecord} {ev : EventRecord}
    (hg : g ∈ dict_append groups owner e) (hev : ev ∈ g.2) :
    (∃ g' ∈ groups, ev ∈ g'.2) ∨ ev = e := by
  induction groups with
  | nil =>
    simp only [dict_append, List.mem_singleton] at hg
    subst hg
    simp only [List.mem_singleton] at hev
    exact Or.inr hev
  | cons p rest ih =>
    obtain ⟨o, es⟩ := p
    simp only [dict_append] at hg
    by_cases ho : (o == owner) = true
    · rw [if_pos ho] at hg
      rcases List.mem_cons.mp hg with hg | hg
      · subst hg
        simp only [List.mem_append, List.mem_singleton] at hev
        rcases hev with hev | hev
        · exact Or.inl ⟨(o, es), List.mem_cons_self _ _, hev⟩
        · exact Or.inr hev
      · exact Or.inl ⟨g, List.mem_cons_of_mem _ hg, hev⟩
    · rw [if_neg ho] at hg
      rcases List.mem_cons.mp hg with hg | hg
      · subst hg
        exact Or.inl ⟨(o, es), List.mem_cons_self _ _, hev⟩
      · rcases ih hg with ⟨g', hg', hev'⟩ | heq
        · exact Or.inl ⟨g', List.mem_cons_of_mem _ hg', hev'⟩
        · exact Or.inr heq

theorem classify_step_owner_mem (db : DB) (nt et : Timedelta) (now : Time)
    (acc : Classified) (event : EventRecord) {g : String × List EventRecord}
    {ev : EventRecord}
    (hg : g ∈ (classify_step db nt et now acc event).events_by_owner) (hev : ev ∈ g.2) :
    (∃ g' ∈ acc.events_by_owner, ev ∈ g'.2) ∨
      (fingerprint_is_ignored db event.fingerprint now = false ∧ ev.id = event.id) := by
  unfold classify_step at hg
  by_cases h : fingerprint_is_ignored db event.fingerprint now = true
  · rw [if_pos h] at hg
    exact Or.inl ⟨g, hg, hev⟩
  · rw [if_neg h] at hg
    by_cases h2 : check_needs_escalation db et
        { event with new := check_if_new db event.fingerprint nt now,
                     needs_escalation := false } now = true
    · rw [if_pos h2] at hg
      rcases dict_append_mem hg hev with hin | heq
      · exact Or.inl hin
      · subst heq
        exact Or.inr ⟨Bool.not_eq_true _ ▸ h, rfl⟩
    · rw [if_neg h2] at hg
      rcases dict_append_mem hg hev with hin | heq
      · exact Or.inl hin
      · subst heq
        exact Or.inr ⟨Bool.not_eq_true _ ▸ h, rfl⟩

/-! #### Whole-batch lemmas for the classification loop -/

theorem classify_fold_ignored (db : DB) (nt et : Timedelta) (now : Time)
    (batch : List EventRecord) (acc : Classified) :
    (batch.foldl (classify_step db nt et now) acc).ignored =
      acc.ignored ++ batch.filter (fun e => fingerprint_is_ignored db e.fingerprint now) := by
  induction batch generalizing acc with
  | nil => simp
  | cons b bs ih =>
    rw [List.foldl_cons, ih, classify_step_ignored]
    by_cases h : fingerprint_is_ignored db b.fingerprint now = true
    · simp [h, List.filter_cons]
    · simp [h, List.filter_cons, Bool.not_eq_true _ ▸ h]

theorem classify_fold_checked_new (db : DB) (nt et : Timedelta) (now : Time)
    (batch : List EventRecord) (acc : Classified) :
    (batch.foldl (classify_step db nt et now) acc).checked_new =
      acc.checked_new ++
        (batch.filter (fun e => ! fingerprint_is_ignored db e.fingerprint now)).map
          (fun e => e.id) := by
  induction batch generalizing acc with
  | nil => simp
  | cons b bs ih =>
    rw [List.foldl_cons, ih, classify_step_checked_new]
    by_cases h : fingerprint_is_ignored db b.fingerprint now = true
    · simp [h, List.filter_cons]
    · simp [h, List.filter_cons]

theorem classify_fold_checked_escalation (db : DB) (nt et : Timedelta) (now : Time)
    (batch : List EventRecord) (acc : Classified) :
    (batch.foldl (classify_step db nt et now) acc).checked_escalation =
      acc.checked_escalation ++
        (batch.filter (fun e => ! fingerprint_is_ignored db e.fingerprint now)).map
          (fun e => e.id) := by
  induction batch generalizing acc with
  | nil => simp
  | cons b bs ih =>
    rw [List.foldl_cons, ih, classify_step_checked_escalation]
    by_cases h : fingerprint_is_ignored db b.fingerprint now = true
    · simp [h, List.filter_cons]
    · simp [h, List.filter_cons]

theorem classify_fold_need_mem (db : DB) (nt et : Timedelta) (now : Time)
    (batch : List EventRecord) (acc : Classified) {ev : EventRecord}
    (hmem : ev ∈ (batch.foldl (classify_step db nt et now) acc).need_escalation) :
    ev ∈ acc.need_escalation ∨
      ∃ b ∈ batch, fingerprint_is_ignored db b.fingerprint now = false ∧ ev.id = b.id := by
  induction batch generalizing acc with
  | nil => exact Or.inl hmem
  | cons b bs ih =>
    rw [List.foldl_cons] at hmem
    rcases ih _ hmem with hacc | ⟨b', hb', hprop⟩
    · rcases classify_step_need_escalation_mem db nt et now acc b hacc with h | h
      · exact Or.inl h
      · exact Or.inr ⟨b, List.mem_cons_self _ _, h⟩
    · exact Or.inr ⟨b', List.mem_cons_of_mem _ hb', hprop⟩

theorem classify_fold_owner_mem (db : DB) (nt et : Timedelta) (now : Time)
    (batch : List EventRecord) (acc : Classified)
    {g : String × List EventRecord} {ev : EventRecord}
    (hg : g ∈ (batch.foldl (classify_step db nt et now) acc).events_by_owner)
    (hev : ev ∈ g.2) :
    (∃ g' ∈ acc.events_by_owner, ev ∈ g'.2) ∨
      ∃ b ∈ batch, fingerprint_is_ignored db b.fingerprint now = false ∧ ev.id = b.id := by
  induction batch generalizing acc with
  | nil => exact Or.inl ⟨g, hg, hev⟩
  | cons b bs ih =>
    rw [List.foldl_cons] at hg
    rcases ih _ hg with ⟨g', hg', hev'⟩ | ⟨b', hb', hprop⟩
    · rcases classify_step_owner_mem db nt et now acc b hg' hev' with h | h
      · exact Or.inl h
      · exact Or.inr ⟨b, List.mem_cons_self _ _, h⟩
    · exact Or.inr ⟨b', List.mem_cons_of_mem _ hb', hprop⟩

/-! #### Row-level behaviour of the bulk timestamp updates -/

theorem update_processed_at_mem_of_match {db : DB} {records : List EventRecord}
    {now : Time} {row : EventRecord} (hrow : row ∈ db.events)
    (hmatch : ∃ r ∈ records, r.id = row.id) :
    { row with processed_at := some now } ∈ (update_processed_at db records now).events := by
  obtain ⟨r, hr, hid⟩ := hmatch
  refine List.mem_map.mpr ⟨row, hrow, ?_⟩
  rw [if_pos (List.any_eq_true.mpr ⟨r, hr, by simp [hid]⟩)]

theorem update_processed_at_mem_of_nomatch {db : DB} {records : List EventRecord}
    {now : Time} {row : EventRecord} (hrow : row ∈ db.events)
    (hno : ¬ ∃ r ∈ records, r.id = row.id) :
    row ∈ (update_processed_at db records now).events := by
  refine List.mem_map.mpr ⟨row, hrow, ?_⟩
  rw [if_neg]
  intro hany
  obtain ⟨r, hr, hid⟩ := List.any_eq_true.mp hany
  exact hno ⟨r, hr, by simpa using hid⟩

theorem update_sent_at_mem_of_nomatch {db : DB} {records : List EventRecord}
    {now : Time} {row : EventRecord} (hrow : row ∈ db.events)
    (hno : ¬ ∃ r ∈ records, r.id = row.id) :
    row ∈ (update_sent_at db records now).events := by
  refine List.mem_map.mpr ⟨row, hrow, ?_⟩
  rw [if_neg]
  intro hany
  obtain ⟨r, hr, hid⟩ := List.any_eq_true.mp hany
  exact hno ⟨r, hr, by simpa using hid⟩

theorem update_escalated_at_mem_of_nomatch {db : DB} {records : List EventRecord}
    {now : Time} {row : EventRecord} (hrow : row ∈ db.events)
    (hno : ¬ ∃ r ∈ records, r.id = row.id) :
    row ∈ (update_escalated_at db records now).events := by
  refine List.mem_map.mpr ⟨row, hrow, ?_⟩
  rw [if_neg]
  intro hany
  obtain ⟨r, hr, hid⟩ := List.any_eq_true.mp hany
  exact hno ⟨r, hr, by simpa using hid⟩

/-! #### Frame lemmas for the owner-group loop and the escalation helper -/

theorem process_owner_group_calls {db : DB} {routers : SourceTypeFunction}
    {cad : Timedelta} {o : String} {evs : List EventRecord} {st : String} {now : Time}
    {call : RouterCall}
    (hc : call ∈ (process_owner_group db routers cad o evs st now).1) :
    call.events = evs := by
  unfold process_owner_group route_events at hc
  by_cases h : (evs.any (fun e => e.new) ||
      check_any_issue_needs_reminder db cad evs now) = true
  · rw [if_pos h] at hc
    obtain ⟨r, -, hcall⟩ := List.mem_map.mp hc
    rw [← hcall]
  · rw [if_neg h] at hc
    simp at hc

theorem process_owner_group_preserves {db : DB} {routers : SourceTypeFunction}
    {cad : Timedelta} {o : String} {evs : List EventRecord} {st : String} {now : Time}
    {row : EventRecord} (hrow : row ∈ db.events)
    (hno : ¬ ∃ r ∈ evs, r.id = row.id) :
    row ∈ (process_owner_group db routers cad o evs st now).2.events := by
  unfold process_owner_group route_events
  by_cases h : (evs.any (fun e => e.new) ||
      check_any_issue_needs_reminder db cad evs now) = true
  · rw [if_pos h]
    exact update_processed_at_mem_of_nomatch
      (update_sent_at_mem_of_nomatch hrow hno) hno
  · rw [if_neg h]
    exact update_processed_at_mem_of_nomatch hrow hno

theorem process_owner_groups_fold_calls {routers : SourceTypeFunction} {cad : Timedelta}
    {st : String} {now : Time} :
    ∀ (groups : List (String × List EventRecord)) (acc : List RouterCall × DB)
      {call : RouterCall},
      call ∈ (groups.foldl (pog_step routers cad st now) acc).1 →
      call ∈ acc.1 ∨ ∃ g ∈ groups, call.events = g.2 := by
  intro groups
  induction groups with
  | nil =>
    intro acc call hc
    exact Or.inl hc
  | cons g gs ih =>
    intro acc call hc
    rw [List.foldl_cons] at hc
    rcases ih _ hc with hacc | ⟨g', hg', heq⟩
    · unfold pog_step at hacc
      rcases List.mem_append.mp hacc with h | h
      · exact Or.inl h
      · exact Or.inr ⟨g, List.mem_cons_self _ _, process_owner_group_calls h⟩
    · exact Or.inr ⟨g', List.mem_cons_of_mem _ hg', heq⟩

theorem process_owner_groups_fold_preserves {routers : SourceTypeFunction}
    {cad : Timedelta} {st : String} {now : Time} :
    ∀ (groups : List (String × List EventRecord)) (acc : List RouterCall × DB)
      {row : EventRecord},
      row ∈ acc.2.events →
      (∀ g ∈ groups, ∀ ev ∈ g.2, ev.id ≠ row.id) →
      row ∈ (groups.foldl (pog_step routers cad st now) acc).2.events := by
  intro groups
  induction groups with
  | nil =>
    intro acc row hrow _
    exact hrow
  | cons g gs ih =>
    intro acc row hrow hno
    rw [List.foldl_cons]
    refine ih _ ?_ (fun g' hg' => hno g' (List.mem_cons_of_mem _ hg'))
    show row ∈ (process_owner_group acc.2 routers cad g.1 g.2 st now).2.events
    refine process_owner_group_preserves hrow ?_
    rintro ⟨r, hr, hid⟩
    exact hno g (List.mem_cons_self _ _) r hr hid

theorem handle_events_calls {db : DB} {escalators : SourceTypeFunction} {st : String}
    {evs : List EventRecord} {now : Time} {call : EscalatorCall}
    (hc : call ∈ (handle_events_need_escalation db escalators st evs now).1) :
    call.events = evs := by
  unfold handle_events_need_escalation at hc
  by_cases h : evs.isEmpty = true
  · rw [if_pos h] at hc
    simp at hc
  · rw [if_neg h] at hc
    obtain ⟨f, -, hcall⟩ := List.mem_map.mp hc
    rw [← hcall]

theorem handle_events_preserves {db : DB} {escalators : SourceTypeFunction} {st : String}
    {evs : List EventRecord} {now : Time} {row : EventRecord}
    (hrow : row ∈ db.events) (hno : ¬ ∃ r ∈ evs, r.id = row.id) :
    row ∈ (handle_events_need_escalation db escalators st evs now).2.events := by
  unfold handle_events_need_escalation
  by_cases h : evs.isEmpty = true
  · rw [if_pos h]
    exact hrow
  · rw [if_neg h]
    exact update_escalated_at_mem_of_nomatch hrow hno

/-! #### The debounced batch never holds duplicate ids -/

theorem get_batch_cases (db : DB) (wfm mw : Timedelta) (st : String) (now : Time) :
    get_unprocessed_events_batch db wfm mw st now = [] ∨
    get_unprocessed_events_batch db wfm mw st now = sortedBatch db st := by
  cases h1 : (sortedBatch db st).getLast? with
  | none =>
    exact Or.inl (batch_eq_nil_of_empty wfm mw now (List.getLast?_eq_none_iff.mp h1))
  | some latest =>
    cases h2 : (sortedBatch db st).head? with
    | none =>
      exact Or.inl (batch_eq_nil_of_empty wfm mw now (List.head?_eq_none_iff.mp h2))
    | some earliest =>
      rw [batch_eq_of_some wfm mw now h1 h2]
      by_cases hw : latest.received_at < now - wfm
      · rw [if_pos hw]
        exact Or.inr rfl
      · rw [if_neg hw]
        by_cases hm : earliest.received_at < now - mw
        · rw [if_pos hm]
          exact Or.inr rfl
        · rw [if_neg hm]
          exact Or.inl rfl

theorem batch_ids_nodup {db : DB} (wfm mw : Timedelta) (st : String) (now : Time)
    (hnodup : (db.events.map (fun e => e.id)).Nodup) :
    ((get_unprocessed_events_batch db wfm mw st now).map (fun e => e.id)).Nodup := by
  rcases get_batch_cases db wfm mw st now with h | h <;> rw [h]
  · simp
  · have hperm : (sortedBatch db st).Perm (pendingRows db st) :=
      List.perm_insertionSort receivedLE (pendingRows db st)
    have hsub : ((pendingRows db st).map (fun e => e.id)).Sublist
        (db.events.map (fun e => e.id)) :=
      (List.filter_sublist _).map _
    exact ((hperm.map _).nodup_iff).mpr (hsub.nodup hnodup)

/-! ### The full digest-mode pass (claim C4) -/

/-- Trace of a digest pass: router and escalator invocations, plus the
event ids submitted to `check_if_new` / `check_needs_escalation`. -/
structure DigestTrace where
  router_calls : List RouterCall
  escalator_calls : List EscalatorCall
  checked_new : List Nat
  checked_escalation : List Nat
  deriving DecidableEq, Repr

/-- The tail of the digest branch of `Comet.process_unprocessed_events`
after classification: stamp `processed_at` on the ignored events (guarded
by `if ignored_events:`), run the owner-group loop, and finally — when
`need_escalation_events` is non-empty and `may_send_escalation` allows it —
run `_handle_events_need_escalation`.  A `TypeError` raised by
`may_send_escalation` propagates. -/
def digest_after_classify (db : DB) (routers escalators : SourceTypeFunction)
    (owner_reminder_cadence escalation_reminder_cadence : Timedelta)
    (c : Classified) (source_type : String) (now : Time) :
    Except String (DigestTrace × DB) :=
  let db1 := if c.ignored.isEmpty then db else update_processed_at db c.ignored now
  let pg := process_owner_groups db1 routers owner_reminder_cadence
    c.events_by_owner source_type now
  if c.need_escalation.isEmpty then
    Except.ok (⟨pg.1, [], c.checked_new, c.checked_escalation⟩, pg.2)
  else
    match may_send_escalation pg.2 source_type escalation_reminder_cadence now with
    | Except.error msg => Except.error msg
    | Except.ok true =>
      let he := handle_events_need_escalation pg.2 escalators source_type
        c.need_escalation now
      Except.ok (⟨pg.1, he.1, c.checked_new, c.checked_escalation⟩, he.2)
    | Except.ok false =>
      Except.ok (⟨pg.1, [], c.checked_new, c.checked_escalation⟩, pg.2)

/-- One digest-mode pass of `Comet.process_unprocessed_events` for one
source type: fetch the debounced batch, classify it, then notify and
escalate. -/
def digest_pass (db : DB) (routers escalators : SourceTypeFunction)
    (wait_for_more max_wait new_threshold owner_reminder_cadence
      escalation_time escalation_reminder_cadence : Timedelta)
    (source_type : String) (now : Time) : Except String (DigestTrace × DB) :=
  digest_after_classify db routers escalators owner_reminder_cadence
    escalation_reminder_cadence
    (classify_batch db new_threshold escalation_time now
      (get_unprocessed_events_batch db wait_for_more max_wait source_type now))
    source_type now

theorem digest_after_classify_inv {db : DB} {routers escalators : SourceTypeFunction}
    {oc ec : Timedelta} {c : Classified} {st : String} {now : Time}
    {tr : DigestTrace} {db' : DB}
    (h : digest_after_classify db routers escalators oc ec c st now =
      Except.ok (tr, db'))
    (hne : c.ignored.isEmpty = false) :
    tr.checked_new = c.checked_new ∧
    tr.checked_escalation = c.checked_escalation ∧
    (∀ call ∈ tr.router_calls,
      call ∈ (process_owner_groups (update_processed_at db c.ignored now) routers oc
        c.events_by_owner st now).1) ∧
    (∀ call ∈ tr.escalator_calls, call.events = c.need_escalation) ∧
    (db' = (process_owner_groups (update_processed_at db c.ignored now) routers oc
        c.events_by_owner st now).2 ∨
     db' = (handle_events_need_escalation
        (process_owner_groups (update_processed_at db c.ignored now) routers oc
          c.events_by_owner st now).2 escalators st c.need_escalation now).2) := by
  unfold digest_after_classify at h
  rw [hne] at h
  simp only [Bool.false_eq_true, if_false] at h
  by_cases hesc : c.need_escalation.isEmpty = true
  · rw [if_pos hesc] at h
    injection h with h
    have htr := congrArg Prod.fst h
    have hdb := congrArg Prod.snd h
    simp only at htr hdb
    subst hdb
    rw [← htr]
    refine ⟨rfl, rfl, fun call hc => hc, fun call hc => absurd hc (by simp), Or.inl rfl⟩
  · rw [if_neg hesc] at h
    cases hms : may_send_escalation
        (process_owner_groups (update_processed_at db c.ignored now) routers oc
          c.events_by_owner st now).2 st ec now with
    | error msg =>
      rw [hms] at h
      exact absurd h (by simp)
    | ok b =>
      rw [hms] at h
      cases b with
      | true =>
        simp only at h
        injection h with h
        have htr := congrArg Prod.fst h
        have hdb := congrArg Prod.snd h
        simp only at htr hdb
        subst hdb
        rw [← htr]
        exact ⟨rfl, rfl, fun call hc => hc,
          fun call hc => handle_events_calls hc, Or.inr rfl⟩
      | false =>
        simp only at h
        injection h with h
        have htr := congrArg Prod.fst h
        have hdb := congrArg Prod.snd h
        simp only at htr hdb
        subst hdb
        rw [← htr]
        exact ⟨rfl, rfl, fun call hc => hc,
          fun call hc => absurd hc (by simp), Or.inl rfl⟩

/-- C4.  During a digest pass, an event of the batch whose fingerprint has
a live ignore record (`expires_at` NULL or in the future) is terminal for
the pass: its id is never submitted to `check_if_new` or
`check_needs_escalation`, it appears in no router or escalator invocation,
and the only change to its row is `processed_at = now`. -/
theorem c4_ignored_event_isolated (db : DB) (routers escalators : SourceTypeFunction)
    (wfm mw nt oc et ec : Timedelta) (st : String) (now : Time) (e : EventRecord)
    (hnodup : (db.events.map (fun x => x.id)).Nodup)
    (hbatch : e ∈ get_unprocessed_events_batch db wfm mw st now)
    (hig : fingerprint_is_ignored db e.fingerprint now = true) :
    ∀ tr db', digest_pass db routers escalators wfm mw nt oc et ec st now =
        Except.ok (tr, db') →
      (e.id ∉ tr.checked_new ∧ e.id ∉ tr.checked_escalation) ∧
      (∀ call ∈ tr.router_calls, ∀ ev ∈ call.events, ev.id ≠ e.id) ∧
      (∀ call ∈ tr.escalator_calls, ∀ ev ∈ call.events, ev.id ≠ e.id) ∧
      (∀ row ∈ db.events, row.id = e.id →
        { row with processed_at := some now } ∈ db'.events) := by
  intro tr db' hpass
  have hids := batch_ids_nodup wfm mw st now hnodup
  have hkey : ∀ b ∈ get_unprocessed_events_batch db wfm mw st now,
      fingerprint_is_ignored db b.fingerprint now = false → b.id ≠ e.id := by
    intro b hb hbig heq
    have hbe : b = e := List.inj_on_of_nodup_map hids hb hbatch heq
    rw [hbe, hig] at hbig
    exact Bool.noConfusion hbig
  unfold digest_pass at hpass
  set c := classify_batch db nt et now
    (get_unprocessed_events_batch db wfm mw st now) with hc
  have hcn : c.checked_new =
      ((get_unprocessed_events_batch db wfm mw st now).filter
        (fun x => ! fingerprint_is_ignored db x.fingerprint now)).map (fun x => x.id) := by
    rw [hc]
    unfold classify_batch
    rw [classify_fold_checked_new]
    rfl
  have hce : c.checked_escalation =
      ((get_unprocessed_events_batch db wfm mw st now).filter
        (fun x => ! fingerprint_is_ignored db x.fingerprint now)).map (fun x => x.id) := by
    rw [hc]
    unfold classify_batch
    rw [classify_fold_checked_escalation]
    rfl
  have hnotin : e.id ∉
      ((get_unprocessed_events_batch db wfm mw st now).filter
        (fun x => ! fingerprint_is_ignored db x.fingerprint now)).map (fun x => x.id) := by
    intro hmem
    obtain ⟨b, hbf, hidb⟩ := List.mem_map.mp hmem
    have hb := List.mem_filter.mp hbf
    exact hkey b hb.1 (by simpa using hb.2) hidb
  have hneed : ∀ ev ∈ c.need_escalation, ev.id ≠ e.id := by
    intro ev hev
    rw [hc] at hev
    rcases classify_fold_need_mem db nt et now _ _ hev with h | ⟨b, hb, hbig, hid⟩
    · simp at h
    · rw [hid]
      exact hkey b hb hbig
  have howner : ∀ g ∈ c.events_by_owner, ∀ ev ∈ g.2, ev.id ≠ e.id := by
    intro g hg ev hev
    rw [hc] at hg
    rcases classify_fold_owner_mem db nt et now _ _ hg hev with h | ⟨b, hb, hbig, hid⟩
    · simp at h
    · rw [hid]
      exact hkey b hb hbig
  have higmem : e ∈ c.ignored := by
    rw [hc]
    show e ∈ ((get_unprocessed_events_batch db wfm mw st now).foldl
      (classify_step db nt et now) ⟨[], [], [], [], []⟩).ignored
    rw [classify_fold_ignored]
    exact List.mem_append.mpr (Or.inr (List.mem_filter.mpr ⟨hbatch, hig⟩))
  have hine : c.ignored.isEmpty = false := by
    cases hi : c.ignored.isEmpty
    · rfl
    · rw [List.isEmpty_iff] at hi
      rw [hi] at higmem
      simp at higmem
  obtain ⟨htrn, htre, htrc, htres, hdb⟩ := digest_after_classify_inv hpass hine
  refine ⟨⟨?_, ?_⟩, ?_, ?_, ?_⟩
  · rw [htrn, hcn]
    exact hnotin
  · rw [htre, hce]
    exact hnotin
  · intro call hcall ev hev
    rcases process_owner_groups_fold_calls _ _ (htrc call hcall) with h0 | ⟨g, hg, heqev⟩
    · simp at h0
    · rw [heqev] at hev
      exact howner g hg ev hev
  · intro call hcall ev hev
    rw [htres call hcall] at hev
    exact hneed ev hev
  · intro row hrow hid
    have hrow1 : { row with processed_at := some now } ∈
        (update_processed_at db c.ignored now).events :=
      update_processed_at_mem_of_match hrow ⟨e, higmem, hid.symm⟩
    have hpres : { row with processed_at := some now } ∈
        (process_owner_groups (update_processed_at db c.ignored now) routers oc
          c.events_by_owner st now).2.events := by
      refine process_owner_groups_fold_preserves _ _ hrow1 ?_
      intro g hg ev hev
      show ev.id ≠ row.id
      rw [hid]
      exact howner g hg ev hev
    rcases hdb with hdb | hdb
    · rw [hdb]
      exact hpres
    · rw [hdb]
      refine handle_events_preserves hpres ?_
      rintro ⟨r, hr, hid2⟩
      refine hneed r hr ?_
      rw [hid2]
      show row.id = e.id
      exact hid

/-- Witness for C4 on a concrete pass: event 1 (fingerprint `f1`) carries a
permanent accept-risk record; event 2 is new and old enough to escalate.
The pass routes and escalates only event 2, and event 1 merely gets
`processed_at` stamped. -/
theorem c4_witness :
    ((⟨1, "st", "f1", "alice", 10, none, none, none, false, false, false⟩ :
        EventRecord).id ∉ ([2] : List Nat) ∧
     (⟨1, "st", "f1", "alice", 10, none, none, none, false, false, false⟩ :
        EventRecord).id ∉ ([2] : List Nat)) ∧
    (∀ call ∈ [(⟨9, "st", "bob",
        [⟨2, "st", "f2", "bob", 20, none, none, none, true, true, true⟩]⟩ : RouterCall)],
      ∀ ev ∈ call.events,
        ev.id ≠ (⟨1, "st", "f1", "alice", 10, none, none, none, false, false, false⟩ :
          EventRecord).id) ∧
    (∀ call ∈ [(⟨5, "st",
        [⟨2, "st", "f2", "bob", 20, none, none, none, true, true, true⟩]⟩ : EscalatorCall)],
      ∀ ev ∈ call.events,
        ev.id ≠ (⟨1, "st", "f1", "alice", 10, none, none, none, false, false, false⟩ :
          EventRecord).id) ∧
    (∀ row ∈ [(⟨1, "st", "f1", "alice", 10, none, none, none, false, false, false⟩ :
        EventRecord),
        ⟨2, "st", "f2", "bob", 20, none, none, none, false, false, false⟩],
      row.id = (⟨1, "st", "f1", "alice", 10, none, none, none, false, false, false⟩ :
          EventRecord).id →
      { row with processed_at := some 1000 } ∈
        [(⟨1, "st", "f1", "alice", 10, none, none, some 1000, false, false, false⟩ :
           EventRecord),
         ⟨2, "st", "f2", "bob", 20, some 1000, some 1000, some 1000, false, false, false⟩]) := by
  have h := c4_ignored_event_isolated
    ⟨[⟨1, "st", "f1", "alice", 10, none, none, none, false, false, false⟩,
      ⟨2, "st", "f2", "bob", 20, none, none, none, false, false, false⟩],
     [⟨1, "f1", "acceptrisk", 5, none⟩]⟩
    ⟨[], [9]⟩ ⟨[], [5]⟩ 10 500 100 50 100 100 "st" 1000
    ⟨1, "st", "f1", "alice", 10, none, none, none, false, false, false⟩
    (by decide) (by decide) (by decide)
    ⟨[⟨9, "st", "bob", [⟨2, "st", "f2", "bob", 20, none, none, none, true, true, true⟩]⟩],
     [⟨5, "st", [⟨2, "st", "f2", "bob", 20, none, none, none, true, true, true⟩]⟩],
     [2], [2]⟩
    ⟨[⟨1, "st", "f1", "alice", 10, none, none, some 1000, false, false, false⟩,
      ⟨2, "st", "f2", "bob", 20, some 1000, some 1000, some 1000, false, false, false⟩],
     [⟨1, "f1", "acceptrisk", 5, none⟩]⟩
    rfl
  exact h

/-! ### `handle_non_addressed_events` (claim C6) -/

/-- The value stored under `escalate_cadence` in a per-event config dict:
either a `timedelta` or the Python constant `False` (the dict is
duck-typed; the repository's tests use both). -/
inductive CadenceVal where
  | td (t : Timedelta)
  | fls
  deriving DecidableEq, Repr

/-- The loop body of `Comet.handle_non_addressed_events` over the
non-addressed events of one source type.  The registered config provider
yields `some v` when the returned dict contains `escalate_cadence` (and
`none` when the key is absent; an unregistered provider is modelled by a
provider that is constantly `none`, i.e. `event_config = dict()`).
`event_config.get('escalate_cadence', timedelta(hours=36))` then supplies
the 36-hour default, and the comparison
`event_sent_at <= datetime.utcnow() - escalate_cadence` is evaluated: when
`escalate_cadence` is `False`, `datetime - bool` raises a `TypeError`
which aborts the sweep. -/
def sweep_collect (provider : EventRecord → Option CadenceVal) (now : Time) :
    List EventRecord → Except String (List EventRecord)
  | [] => Except.ok []
  | e :: rest =>
    match (provider e).getD (CadenceVal.td hours36) with
    | CadenceVal.fls =>
      Except.error "TypeError: unsupported operand types for subtraction: datetime and bool"
    | CadenceVal.td c =>
      match e.sent_at with
      | none => Except.error "TypeError: ordering of NoneType and datetime"
      | some s =>
        match sweep_collect provider now rest with
        | Except.error msg => Except.error msg
        | Except.ok tail => Except.ok (if s ≤ now - c then e :: tail else tail)

/-- `Comet.handle_non_addressed_events` for one real-time source type:
fetch the sent-but-unaddressed events, collect those overdue per their
per-event `escalate_cadence`, and hand them to
`_handle_events_need_escalation`. -/
def handle_non_addressed_events_for (db : DB) (escalators : SourceTypeFunction)
    (provider : EventRecord → Option CadenceVal) (source_type : String) (now : Time) :
    Except String (List EscalatorCall × DB) :=
  match sweep_collect provider now (get_events_did_not_addressed db source_type) with
  | Except.error msg => Except.error msg
  | Except.ok events_needs_escalation =>
    Except.ok (handle_events_need_escalation db escalators source_type
      events_needs_escalation now)

/-- C6, code evaluated at the failing input.  A real-time source whose
config provider returns `escalate_cadence = False` for its single
non-addressed event (sent one hour before `now`): instead of exempting the
event and completing with zero escalations — the behaviour the spec and
the repository's own test `test_handle_non_escalatable_events` demand —
the sweep raises `TypeError` from `datetime.utcnow() - False`. -/
theorem c6_escalate_cadence_false_raises :
    handle_non_addressed_events_for
        ⟨[⟨2, "real_time_source", "f2", "owner", 96400, some 96400, none, some 96400,
           false, false, false⟩], []⟩
        ⟨[("real_time_source", [4])], []⟩
        (fun _ => some CadenceVal.fls) "real_time_source" 100000 =
      Except.error
        "TypeError: unsupported operand types for subtraction: datetime and bool" :=
  rfl

/-- The intact default path of the sweep, for contrast with the failing
one: with the `escalate_cadence` key absent the cadence defaults to 36
hours, and an event is queued for escalation iff `sent_at ≤ now - 36h`. -/
theorem sweep_collect_default (now : Time) (l : List EventRecord)
    (hsent : ∀ e ∈ l, e.sent_at.isSome) :
    sweep_collect (fun _ => none) now l =
      Except.ok (l.filter (fun e =>
        match e.sent_at with
        | some s => decide (s ≤ now - hours36)
        | none => false)) := by
  induction l with
  | nil => rfl
  | cons e rest ih =>
    obtain ⟨s, hs⟩ := Option.isSome_iff_exists.mp (hsent e (List.mem_cons_self _ _))
    have ihr := ih (fun x hx => hsent x (List.mem_cons_of_mem _ hx))
    by_cases hcond : s ≤ now - hours36
    · simp [sweep_collect, hs, ihr, hcond, List.filter_cons]
    · simp [sweep_collect, hs, ihr, hcond, List.filter_cons]

/-! ### Per-source-type configuration resolution (claim C9) -/

/-- A Python dict of configuration values: insertion-ordered association
list with unique keys (durations, as integers). -/
abbrev Config := List (String × Int)

/-- `d[k] = v`: overwrite in place (keeping the key's position) or append a
new key at the end — the semantics of assignment into a Python dict. -/
def dict_set : Config → String → Int → Config
  | [], k, v => [(k, v)]
  | (k', v') :: rest, k, v =>
    if k' == k then (k', v) :: rest else (k', v') :: dict_set rest k v

/-- `base.update(overrides)`: assign every override into `base`, in
order — this mutates `base`. -/
def dict_update (base overrides : Config) : Config :=
  overrides.foldl (fun acc kv => dict_set acc kv.1 kv.2) base

/-- The head of the per-source-type loop of
`Comet.process_unprocessed_events`:

```
source_type_config = self.batch_config
if source_type in self.specific_configs:
    source_type_config.update(self.specific_configs[source_type])
```

`source_type_config` aliases the shared `batch_config` dict, and
`dict.update` mutates it in place, so the updated dict is carried into the
following iterations.  The function returns the effective configuration
used for each source type, in order, together with the final state of the
shared `batch_config`. -/
def resolve_configs (specific_configs : List (String × Config)) :
    Config → List String → List (String × Config) × Config
  | batch_config, [] => ([], batch_config)
  | batch_config, source_type :: rest =>
    let bc := match specific_configs.lookup source_type with
      | some overrides => dict_update batch_config overrides
      | none => batch_config
    let r := resolve_configs specific_configs bc rest
    ((source_type, bc) :: r.1, r.2)

/-- C9, counterexample.  Two source types `A`, `B`; `A` overrides
`wait_for_more` to 99.  After processing `A`, the shared default dict is no
longer `[("wait_for_more", 3)]`, and the effective configuration computed
for `B` — which has no overrides at all — contains `A`'s value 99. -/
theorem c9_counterexample :
    (resolve_configs [("A", [("wait_for_more", 99)])]
        [("wait_for_more", 3)] ["A", "B"]).2 ≠ [("wait_for_more", 3)] ∧
    (resolve_configs [("A", [("wait_for_more", 99)])]
        [("wait_for_more", 3)] ["A", "B"]).1 =
      [("A", [("wait_for_more", 99)]), ("B", [("wait_for_more", 99)])] :=
  ⟨by decide, by decide⟩

/-- The overrides of a list of source types applied cumulatively to a
starting dict, in order. -/
def apply_overrides (specific_configs : List (String × Config)) (bc : Config)
    (source_types : List String) : Config :=
  source_types.foldl (fun acc st =>
    match specific_configs.lookup st with
    | some overrides => dict_update acc overrides
    | none => acc) bc

theorem resolve_configs_final (specific_configs : List (String × Config)) :
    ∀ (source_types : List String) (bc : Config),
      (resolve_configs specific_configs bc source_types).2 =
        apply_overrides specific_configs bc source_types := by
  intro source_types
  induction source_types with
  | nil => intro bc; rfl
  | cons st rest ih =>
    intro bc
    unfold resolve_configs apply_overrides
    rw [List.foldl_cons]
    cases specific_configs.lookup st with
    | none => exact ih bc
    | some overrides => exact ih (dict_update bc overrides)

/-- C9, amended.  Because the merge mutates the shared dict in place, the
effective configuration of the source type at position `i` is the global
default updated by the overrides of *all* source types processed up to and
including it — not just its own — and the shared default dict finishes the
pass carrying every override seen. -/
theorem c9_amended (specific_configs : List (String × Config)) (bc : Config)
    (pre post : List String) (st : String) :
    ((resolve_configs specific_configs bc (pre ++ st :: post)).1.get? pre.length =
      some (st, apply_overrides specific_configs bc (pre ++ [st]))) ∧
    ((resolve_configs specific_configs bc (pre ++ st :: post)).2 =
      apply_overrides specific_configs bc (pre ++ st :: post)) := by
  refine ⟨?_, resolve_configs_final specific_configs (pre ++ st :: post) bc⟩
  induction pre generalizing bc with
  | nil =>
    unfold resolve_configs
    cases specific_configs.lookup st with
    | none => rfl
    | some overrides => rfl
  | cons p ps ih =>
    show ((resolve_configs specific_configs bc (p :: (ps ++ st :: post))).1.get?
      (ps.length + 1)) = _
    unfold resolve_configs
    cases hp : specific_configs.lookup p with
    | none =>
      show (resolve_configs specific_configs bc (ps ++ st :: post)).1.get? ps.length = _
      rw [ih bc]
      show _ = some (st, apply_overrides specific_configs bc ((p :: ps) ++ [st]))
      unfold apply_overrides
      rw [List.cons_append, List.foldl_cons, hp]
    | some overrides =>
      show (resolve_configs specific_configs (dict_update bc overrides)
        (ps ++ st :: post)).1.get? ps.length = _
      rw [ih (dict_update bc overrides)]
      show _ = some (st, apply_overrides specific_configs bc ((p :: ps) ++ [st]))
      unfold apply_overrides
      rw [List.cons_append, List.foldl_cons, hp]

/-- Witness for C9 (amended): with defaults `wait_for_more = 3` and an
override `99` on `A`, the effective configuration at position 1 (source
type `B`) is the default updated by both `A`'s and `B`'s overrides — i.e.
it contains `A`'s 99. -/
theorem c9_witness :
    ((resolve_configs [("A", [("wait_for_more", 99)])]
        [("wait_for_more", 3)] (["A"] ++ "B" :: [])).1.get? ["A"].length =
      some ("B", apply_overrides [("A", [("wait_for_more", 99)])]
        [("wait_for_more", 3)] (["A"] ++ ["B"]))) ∧
    ((resolve_configs [("A", [("wait_for_more", 99)])]
        [("wait_for_more", 3)] (["A"] ++ "B" :: [])).2 =
      apply_overrides [("A", [("wait_for_more", 99)])]
        [("wait_for_more", 3)] (["A"] ++ "B" :: [])) :=
  c9_amended [("A", [("wait_for_more", 99)])] [("wait_for_more", 3)] ["A"] [] "B"

/-! ### The fingerprint engine (`fingerprint.py`, claim C8)

JSON-like payloads are modelled with mutually inductive value / array /
object types (objects are insertion-ordered association lists, like Python
dicts); numbers are integers, which is what the repository's payloads use.
-/

mutual
inductive JValue where
  | null : JValue
  | bool (b : Bool) : JValue
  | num (n : Int) : JValue
  | str (s : String) : JValue
  | arr (items : JArray) : JValue
  | obj (fields : JObject) : JValue
  deriving DecidableEq, Repr
inductive JArray where
  | nil : JArray
  | cons (head : JValue) (tail : JArray) : JArray
  deriving DecidableEq, Repr
inductive JObject where
  | nil : JObject
  | cons (key : String) (val : JValue) (tail : JObject) : JObject
  deriving DecidableEq, Repr
end

/-- Lexicographic comparison of character lists by Unicode code point —
the order Python's `sorted`/`sort_keys` uses on strings. -/
def charListLE : List Char → List Char → Bool
  | [], _ => true
  | _ :: _, [] => false
  | a :: as, b :: bs =>
    if a.toNat < b.toNat then true
    else if b.toNat < a.toNat then false
    else charListLE as bs

/-- Key order for `sort_keys=True`. -/
def keyLE (a b : String) : Bool := charListLE a.data b.data

/-- Insert a field in front of the first entry with a key `≥` its own
(insertion step of a stable sort by key). -/
def insertField (k : String) (v : JValue) : JObject → JObject
  | JObject.nil => JObject.cons k v JObject.nil
  | JObject.cons k' v' rest =>
    if keyLE k k' then JObject.cons k v (JObject.cons k' v' rest)
    else JObject.cons k' v' (insertField k v rest)

/-- Sort the fields of one object level by key (insertion sort). -/
def sortFields : JObject → JObject
  | JObject.nil => JObject.nil
  | JObject.cons k v t => insertField k v (sortFields t)

mutual
/-- Recursively sort every object level of a document by key — the
canonical form that `json.dumps(..., sort_keys=True)` serializes. -/
def sortDeep : JValue → JValue
  | JValue.null => JValue.null
  | JValue.bool b => JValue.bool b
  | JValue.num n => JValue.num n
  | JValue.str s => JValue.str s
  | JValue.arr a => JValue.arr (sortDeepA a)
  | JValue.obj o => JValue.obj (sortFields (sortDeepO o))
def sortDeepA : JArray → JArray
  | JArray.nil => JArray.nil
  | JArray.cons h t => JArray.cons (sortDeep h) (sortDeepA t)
def sortDeepO : JObject → JObject
  | JObject.nil => JObject.nil
  | JObject.cons k v t => JObject.cons k (sortDeep v) (sortDeepO t)
end

/-- One hexadecimal digit, lowercase — as produced by `hexdigest` and by
the `\uXXXX` escapes of the JSON encoder. -/
def hexDigitChar (n : Nat) : Char :=
  if n < 10 then Char.ofNat (48 + n) else Char.ofNat (87 + n)

/-- A `\uXXXX` escape for a code unit below `0x10000`. -/
def uEscape (n : Nat) : List Char :=
  ['\\', 'u', hexDigitChar ((n / 4096) % 16), hexDigitChar ((n / 256) % 16),
   hexDigitChar ((n / 16) % 16), hexDigitChar (n % 16)]

/-- Escape one character the way the default (`ensure_ascii=True`) JSON
encoder does: two-character escapes for the JSON specials, `\uXXXX` for
other control characters and for everything outside ASCII (surrogate pairs
beyond the BMP), the character itself otherwise. -/
def escapeChar (c : Char) : List Char :=
  if c = '"' then ['\\', '"']
  else if c = '\\' then ['\\', '\\']
  else if c = '\n' then ['\\', 'n']
  else if c = '\t' then ['\\', 't']
  else if c = '\r' then ['\\', 'r']
  else if c.toNat = 8 then ['\\', 'b']
  else if c.toNat = 12 then ['\\', 'f']
  else if c.toNat < 32 then uEscape c.toNat
  else if c.toNat < 127 then [c]
  else if c.toNat < 65536 then uEscape c.toNat
  else uEscape (55296 + (c.toNat - 65536) / 1024) ++ uEscape (56320 + (c.toNat - 65536) % 1024)

/-- A JSON string literal with quotes and escaping. -/
def dumpString (s : String) : List Char :=
  '"' :: ((s.data.map escapeChar).flatten ++ ['"'])

mutual
/-- Plain JSON serialization with the default separators `", "` and
`": "` — no key sorting here; `jsonDumps` below serializes the canonical
form. -/
def dumpsRaw : JValue → List Char
  | JValue.null => "null".data
  | JValue.bool true => "true".data
  | JValue.bool false => "false".data
  | JValue.num n => (toString n).data
  | JValue.str s => dumpString s
  | JValue.arr a => '[' :: (dumpsArr a ++ [']'])
  | JValue.obj o => '\x7b' :: (dumpsObj o ++ ['\x7d'])
def dumpsArr : JArray → List Char
  | JArray.nil => []
  | JArray.cons h JArray.nil => dumpsRaw h
  | JArray.cons h (JArray.cons h2 t) =>
    dumpsRaw h ++ ", ".data ++ dumpsArr (JArray.cons h2 t)
def dumpsObj : JObject → List Char
  | JObject.nil => []
  | JObject.cons k v JObject.nil => dumpString k ++ ": ".data ++ dumpsRaw v
  | JObject.cons k v (JObject.cons k2 v2 t) =>
    dumpString k ++ ": ".data ++ dumpsRaw v ++ ", ".data ++
      dumpsObj (JObject.cons k2 v2 t)
end

/-- `json.dumps(input_dict, sort_keys=True)` (as used by `dict_to_hash`):
serialization with every object's keys in sorted order — the
serialization of the recursively key-sorted document. -/
def jsonDumps (j : JValue) : List Char := dumpsRaw (sortDeep j)

/-! #### SHAKE-256 (`hashlib.shake_256`, FIPS 202)

`str_to_hash` hashes the UTF-8 bytes of the canonical JSON string with
SHAKE-256 and keeps `HASH_BYTES = 16` bytes of output.  The permutation is
implemented over 64-bit lanes represented as `Nat` values reduced modulo
`2^64`; the state is the usual list of 25 lanes indexed `x + 5*y`. -/

def mask64 : Nat := 2 ^ 64 - 1

/-- Rotate a 64-bit lane left by `n` (`0 ≤ n < 64`). -/
def rotl64 (x n : Nat) : Nat := ((x <<< n) ||| (x >>> (64 - n))) &&& mask64

/-- The 24 round constants of Keccak-f[1600] (decimal). -/
def keccakRC : List Nat :=
  [1, 32898, 9223372036854808714,
   9223372039002292224, 32907, 2147483649,
   9223372039002292353, 9223372036854808585, 138,
   136, 2147516425, 2147483658,
   2147516555, 9223372036854775947, 9223372036854808713,
   9223372036854808579, 9223372036854808578, 9223372036854775936,
   32778, 9223372039002259466, 9223372039002292353,
   9223372036854808704, 2147483649, 9223372039002292232]

/-- The rotation offsets of the ρ step, indexed by lane `x + 5*y`. -/
def keccakRho : List Nat :=
  [0, 1, 62, 28, 27] ++ [36, 44, 6, 55, 20] ++ [3, 10, 43, 25, 39] ++
    [41, 45, 15, 21, 8] ++ [18, 2, 61, 56, 14]

/-- θ: XOR each lane with the parities of the two neighbouring columns. -/
def theta (A : List Nat) : List Nat :=
  let C := (List.range 5).map (fun x =>
    (A.getD x 0) ^^^ (A.getD (x + 5) 0) ^^^ (A.getD (x + 10) 0) ^^^
      (A.getD (x + 15) 0) ^^^ (A.getD (x + 20) 0))
  let D := (List.range 5).map (fun x =>
    (C.getD ((x + 4) % 5) 0) ^^^ rotl64 (C.getD ((x + 1) % 5) 0) 1)
  (List.range 25).map (fun i => (A.getD i 0) ^^^ (D.getD (i % 5) 0))

/-- ρ and π combined: rotate each lane and move it to its π position. -/
def rhoPi (A : List Nat) : List Nat :=
  (List.range 25).foldl (fun B i =>
    let x := i % 5
    let y := i / 5
    B.set (y + 5 * ((2 * x + 3 * y) % 5)) (rotl64 (A.getD i 0) (keccakRho.getD i 0)))
    (List.replicate 25 0)

/-- χ: the only non-linear step. -/
def chi (B : List Nat) : List Nat :=
  (List.range 25).map (fun i =>
    let x := i % 5
    let y := i / 5
    (B.getD i 0) ^^^
      ((mask64 ^^^ (B.getD ((x + 1) % 5 + 5 * y) 0)) &&& (B.getD ((x + 2) % 5 + 5 * y) 0)))

/-- One round: θ, ρ, π, χ, then ι (XOR the round constant into lane 0). -/
def keccakRound (A : List Nat) (rc : Nat) : List Nat :=
  let B := chi (rhoPi (theta A))
  B.set 0 ((B.getD 0 0) ^^^ rc)

/-- Keccak-f[1600]: 24 rounds. -/
def keccakF (A : List Nat) : List Nat := keccakRC.foldl keccakRound A

/-- A lane from up to eight little-endian bytes. -/
def loadLane (bytes : List Nat) : Nat :=
  bytes.foldr (fun b acc => acc * 256 + b) 0

/-- SHAKE pad10*1 with domain separation byte `0x1F` (rate 136 bytes). -/
def padShake (msg : List Nat) : List Nat :=
  let padlen := 136 - (msg.length % 136)
  if padlen = 1 then msg ++ [0x9F]
  else msg ++ [0x1F] ++ List.replicate (padlen - 2) 0 ++ [0x80]

/-- Absorb one 136-byte block: XOR it into the first 17 lanes and apply the
permutation. -/
def absorbBlock (state : List Nat) (block : List Nat) : List Nat :=
  keccakF ((List.range 25).map (fun i =>
    if i < 17 then (state.getD i 0) ^^^ loadLane ((block.drop (8 * i)).take 8)
    else state.getD i 0))

/-- Absorb the padded message, 136-byte block by 136-byte block; the first
argument counts the remaining blocks (the padded length is always a
multiple of the rate). -/
def absorbBlocks : Nat → List Nat → List Nat → List Nat
  | 0, state, _ => state
  | n + 1, state, msg => absorbBlocks n (absorbBlock state (msg.take 136)) (msg.drop 136)

/-- `shake_256(msg).digest(16)`: absorb the padded message and squeeze 16
bytes (the first two lanes, little-endian). -/
def shake256_16 (msg : List Nat) : List Nat :=
  let padded := padShake msg
  let state := absorbBlocks (padded.length / 136) (List.replicate 25 0) padded
  (List.range 16).map (fun i => ((state.getD (i / 8) 0) >>> (8 * (i % 8))) % 256)

/-- One byte as two lowercase hexadecimal characters. -/
def byteToHex (b : Nat) : List Char := [hexDigitChar (b / 16), hexDigitChar (b % 16)]

/-- `hexdigest(16)`: 32 hexadecimal characters. -/
def hexdigest16 (bytes : List Nat) : List Char := (bytes.map byteToHex).flatten

/-- UTF-8 encoding restricted to the ASCII plane: the canonical JSON
serializer output is pure ASCII (`ensure_ascii=True`), where UTF-8 is the
identity on code points. -/
def utf8Ascii (l : List Char) : List Nat := l.map (fun c => c.toNat)

/-- `str_to_hash` (`fingerprint.py`): SHAKE-256 of the UTF-8 input,
hex-encoded, truncated to `HASH_BYTES = 16` bytes (32 hex characters). -/
def str_to_hash (input : List Char) : List Char :=
  hexdigest16 (shake256_16 (utf8Ascii input))

/-- `dict_to_hash` (`fingerprint.py`): hash of the key-sorted JSON
serialization. -/
def dict_to_hash (input_dict : JObject) : List Char :=
  str_to_hash (jsonDumps (JValue.obj input_dict))

set_option maxRecDepth 10000 in
/-- Validation against FIPS 202: the first 16 bytes of SHAKE-256 of the
empty string. -/
theorem shake256_empty_test_vector :
    str_to_hash [] = "46b9dd2b0ba88d13233b3feb743eeb24".data := by decide

set_option maxRecDepth 10000 in
/-- Validation against the repository's own
`test_event_fingerprint_no_blacklist`: the fingerprint of `ORIG_DICT`. -/
theorem dict_to_hash_orig_dict_test_vector :
    dict_to_hash
      (JObject.cons "a" (JValue.str "b")
        (JObject.cons "b" (JValue.str "c")
          (JObject.cons "res"
            (JValue.obj (JObject.cons "lel" (JValue.str "wahat")
              (JObject.cons "gl" (JValue.str "hf") JObject.nil)))
            JObject.nil))) =
    "30c3e95d8fb3665ba70c6e3630a57d9a".data := by decide

/-! #### `filter_dict` and `comet_event_fingerprint` -/

/-- One entry of the `blacklist` argument: a plain string, or a list/tuple
of keys denoting a path into nested dicts. -/
inductive BlackItem where
  | key (s : String)
  | path (p : List String)
  deriving DecidableEq, Repr

/-- Does the object have the key? (`item in orig_dict`). -/
def objHasKey : JObject → String → Bool
  | JObject.nil, _ => false
  | JObject.cons k' _ t, k => k' == k || objHasKey t k

/-- `del orig_dict[k]`. -/
def objDelete : JObject → String → JObject
  | JObject.nil, _ => JObject.nil
  | JObject.cons k' v t, k =>
    if k' == k then objDelete t k else JObject.cons k' v (objDelete t k)

/-- Value lookup (`pointer.get(sub, ...)`). -/
def objLookup : JObject → String → Option JValue
  | JObject.nil, _ => none
  | JObject.cons k' v t, k => if k' == k then some v else objLookup t k

/-- Replace the value stored under an existing key in place. -/
def objSet : JObject → String → JValue → JObject
  | JObject.nil, _, _ => JObject.nil
  | JObject.cons k' v' t, k, v =>
    if k' == k then JObject.cons k' v t else JObject.cons k' v' (objSet t k v)

/-- The pointer walk of `filter_dict`'s `elif` branch:
`pointer = pointer.get(sub, {})` along the leading keys, then
`if item[-1] in pointer: del pointer[item[-1]]`.  Because the walk holds
references into the original nested dicts, a successful deletion is
reflected in the original; a missing intermediate key makes `pointer` a
fresh empty dict and the deletion is lost.  A non-dict value under an
intermediate key makes the Python raise (`AttributeError` on `.get`, or
`TypeError` when the final membership test / deletion hits a non-dict);
both are modelled as an error result. -/
def navDelete (fields : JObject) (route : List String) (last : String) :
    Except String JObject :=
  match route with
  | [] => Except.ok (if objHasKey fields last then objDelete fields last else fields)
  | s :: rest =>
    match objLookup fields s with
    | some (JValue.obj inner) =>
      match navDelete inner rest last with
      | Except.error e => Except.error e
      | Except.ok inner' => Except.ok (objSet fields s (JValue.obj inner'))
    | some _ => Except.error "TypeError: pointer is not a dict"
    | none => Except.ok fields

/-- One iteration of the `filter_dict` loop.  A string item that is a key
of the dict is deleted; a string item that is *not* a key still matches
`isinstance(item, collections.Iterable)` and falls into the `elif` branch,
which walks its characters as single-character keys (`item[:-1]`,
`item[-1]`); an empty string or empty path raises `IndexError` on
`item[-1]`. -/
def filter_item (fields : JObject) : BlackItem → Except String JObject
  | BlackItem.key s =>
    if objHasKey fields s then Except.ok (objDelete fields s)
    else
      match s.data with
      | [] => Except.error "IndexError: string index out of range"
      | c :: cs =>
        navDelete fields (((c :: cs).dropLast).map (fun ch => String.mk [ch]))
          (String.mk [(c :: cs).getLast (List.cons_ne_nil c cs)])
  | BlackItem.path p =>
    match p with
    | [] => Except.error "IndexError: list index out of range"
    | q :: qs =>
      navDelete fields ((q :: qs).dropLast) ((q :: qs).getLast (List.cons_ne_nil q qs))

/-- `filter_dict` (`fingerprint.py`): remove every blacklisted field, in
order. -/
def filter_dict : JObject → List BlackItem → Except String JObject
  | fields, [] => Except.ok fields
  | fields, item :: rest =>
    match filter_item fields item with
    | Except.error e => Except.error e
    | Except.ok fields' => filter_dict fields' rest

/-- `comet_event_fingerprint` (`fingerprint.py`): deep-copy the payload
(no-op in a functional model), remove the blacklisted fields, serialize
with key-sorted JSON, hash with SHAKE-256 truncated to 16 bytes, and
prepend the prefix string. -/
def comet_event_fingerprint (data_dict : JObject) (blacklist : List BlackItem)
    (pre : List Char) : Except String (List Char) :=
  match filter_dict data_dict blacklist with
  | Except.error e => Except.error e
  | Except.ok filtered => Except.ok (pre ++ dict_to_hash filtered)

set_option maxRecDepth 10000 in
/-- Validation of the blacklist path: the value the *code* computes for the
repository's `test_event_fingerprint_blacklist` input (the checked-in
expected constant `49071247…` predates nested-path support and no longer
matches the code). -/
theorem comet_event_fingerprint_blacklist_vector :
    comet_event_fingerprint
      (JObject.cons "a" (JValue.str "b")
        (JObject.cons "b" (JValue.str "c")
          (JObject.cons "res"
            (JValue.obj (JObject.cons "lel" (JValue.str "wahat")
              (JObject.cons "gl" (JValue.str "hf") JObject.nil)))
            JObject.nil)))
      [BlackItem.key "a", BlackItem.path ["res", "gl"], BlackItem.key "lol"] [] =
    Except.ok "a4e1f36de415f8ab64da9fd8d76c8bbc".data := by
  rfl

/-! #### The key order of `sort_keys=True` is a total order -/

theorem charListLE_total : ∀ a b : List Char, charListLE a b = true ∨ charListLE b a = true := by
  intro a
  induction a with
  | nil => intro b; exact Or.inl rfl
  | cons x xs ih =>
    intro b
    cases b with
    | nil => exact Or.inr rfl
    | cons y ys =>
      by_cases h1 : x.toNat < y.toNat
      · left
        simp [charListLE, h1]
      · by_cases h2 : y.toNat < x.toNat
        · right
          simp [charListLE, h1, h2]
        · rcases ih ys with h | h
          · left
            simp [charListLE, h1, h2, h]
          · right
            simp [charListLE, h1, h2, h]

theorem charListLE_antisymm : ∀ a b : List Char,
    charListLE a b = true → charListLE b a = true → a = b := by
  intro a
  induction a with
  | nil =>
    intro b _ hba
    cases b with
    | nil => rfl
    | cons y ys => exact Bool.noConfusion hba
  | cons x xs ih =>
    intro b hab hba
    cases b with
    | nil => exact Bool.noConfusion hab
    | cons y ys =>
      by_cases h1 : x.toNat < y.toNat
      · simp [charListLE, h1, Nat.lt_asymm h1, Nat.ne_of_lt h1] at hba
      · by_cases h2 : y.toNat < x.toNat
        · simp [charListLE, h1, h2] at hab
        · have hxy : x = y := Char.ext (UInt32.toNat.inj (Nat.le_antisymm
            (Nat.not_lt.mp h2) (Nat.not_lt.mp h1)))
          subst hxy
          simp only [charListLE, if_neg h1, if_neg h2] at hab hba
          rw [ih ys hab hba]

theorem charListLE_trans : ∀ a b c : List Char,
    charListLE a b = true → charListLE b c = true → charListLE a c = true := by
  intro a
  induction a with
  | nil => intro b c _ _; rfl
  | cons x xs ih =>
    intro b c hab hbc
    cases b with
    | nil => exact Bool.noConfusion hab
    | cons y ys =>
      cases c with
      | nil => exact Bool.noConfusion hbc
      | cons z zs =>
        by_cases hxy : x.toNat < y.toNat
        · by_cases hyz : y.toNat < z.toNat
          · simp [charListLE, Nat.lt_trans hxy hyz]
          · by_cases hzy : z.toNat < y.toNat
            · simp [charListLE, hyz, hzy] at hbc
            · have : y.toNat = z.toNat :=
                Nat.le_antisymm (Nat.not_lt.mp hzy) (Nat.not_lt.mp hyz)
              simp [charListLE, this ▸ hxy]
        · by_cases hyx : y.toNat < x.toNat
          · simp [charListLE, hxy, hyx] at hab
          · have hxyeq : x.toNat = y.toNat :=
              Nat.le_antisymm (Nat.not_lt.mp hyx) (Nat.not_lt.mp hxy)
            simp only [charListLE, if_neg hxy, if_neg hyx] at hab
            by_cases hyz : y.toNat < z.toNat
            · simp [charListLE, hxyeq ▸ hyz]
            · by_cases hzy : z.toNat < y.toNat
              · simp [charListLE, hyz, hzy] at hbc
              · have hyzeq : y.toNat = z.toNat :=
                  Nat.le_antisymm (Nat.not_lt.mp hzy) (Nat.not_lt.mp hyz)
                have hxz : ¬ x.toNat < z.toNat := by omega
                have hzx : ¬ z.toNat < x.toNat := by omega
                simp only [charListLE, if_neg hyz, if_neg hzy] at hbc
                simp only [charListLE, if_neg hxz, if_neg hzx]
                exact ih ys zs hab hbc

theorem keyLE_total (a b : String) : keyLE a b = true ∨ keyLE b a = true :=
  charListLE_total a.data b.data

theorem keyLE_antisymm {a b : String} (hab : keyLE a b = true) (hba : keyLE b a = true) :
    a = b := by
  cases a with
  | mk la =>
    cases b with
    | mk lb =>
      rw [charListLE_antisymm la lb hab hba]

theorem keyLE_trans {a b c : String} (hab : keyLE a b = true) (hbc : keyLE b c = true) :
    keyLE a c = true :=
  charListLE_trans a.data b.data c.data hab hbc

theorem keyLE_false_of_lt {a b : String} (hne : a ≠ b) (hab : keyLE a b = true) :
    keyLE b a = false := by
  cases h : keyLE b a
  · rfl
  · exact absurd (keyLE_antisymm hab h) hne

/-- Inserting two fields with distinct keys commutes. -/
theorem insertField_comm_aux {k1 k2 : String} (v1 v2 : JValue)
    (h12 : keyLE k1 k2 = true) (h21 : keyLE k2 k1 = false) :
    ∀ s, insertField k1 v1 (insertField k2 v2 s) = insertField k2 v2 (insertField k1 v1 s)
  | JObject.nil => by
    simp [insertField, h12, h21]
  | JObject.cons k' v' rest => by
    have ih := insertField_comm_aux v1 v2 h12 h21 rest
    by_cases h2' : keyLE k2 k' = true
    · have h1' : keyLE k1 k' = true := keyLE_trans h12 h2'
      simp [insertField, h12, h21, h1', h2']
    · by_cases h1' : keyLE k1 k' = true
      · simp [insertField, h12, h21, h1', h2']
      · simp [insertField, h12, h21, h1', h2', ih]

theorem insertField_comm {k1 k2 : String} (hne : k1 ≠ k2) (v1 v2 : JValue)
    (s : JObject) :
    insertField k1 v1 (insertField k2 v2 s) = insertField k2 v2 (insertField k1 v1 s) := by
  rcases keyLE_total k1 k2 with h | h
  · exact insertField_comm_aux v1 v2 h (keyLE_false_of_lt hne h) s
  · exact (insertField_comm_aux v2 v1 h (keyLE_false_of_lt (Ne.symm hne) h) s).symm

/-! #### Equality of payloads as mappings

`PermJ` formalises "equal as mappings, independent of key insertion
order": documents that agree structurally except that the fields of every
object level may be listed in a different order (`PermO` is the usual
permutation relation on association lists, with values compared
recursively by `PermJ`).  `ndJ` states that every object level has
pairwise distinct keys — the invariant of a document that came from a
Python dict. -/

mutual
inductive PermJ : JValue → JValue → Prop where
  | null : PermJ JValue.null JValue.null
  | bool (b : Bool) : PermJ (JValue.bool b) (JValue.bool b)
  | num (n : Int) : PermJ (JValue.num n) (JValue.num n)
  | str (s : String) : PermJ (JValue.str s) (JValue.str s)
  | arr {a a' : JArray} : PermA a a' → PermJ (JValue.arr a) (JValue.arr a')
  | obj {o o' : JObject} : PermO o o' → PermJ (JValue.obj o) (JValue.obj o')
inductive PermA : JArray → JArray → Prop where
  | nil : PermA JArray.nil JArray.nil
  | cons {h h' : JValue} {t t' : JArray} :
    PermJ h h' → PermA t t' → PermA (JArray.cons h t) (JArray.cons h' t')
inductive PermO : JObject → JObject → Prop where
  | nil : PermO JObject.nil JObject.nil
  | cons (k : String) {v v' : JValue} {t t' : JObject} :
    PermJ v v' → PermO t t' → PermO (JObject.cons k v t) (JObject.cons k v' t')
  | swap (k1 : String) (v1 : JValue) (k2 : String) (v2 : JValue) (t : JObject) :
    PermO (JObject.cons k1 v1 (JObject.cons k2 v2 t))
      (JObject.cons k2 v2 (JObject.cons k1 v1 t))
  | trans {a b c : JObject} : PermO a b → PermO b c → PermO a c
end

/-- The keys of one object level, in order. -/
def keysO : JObject → List String
  | JObject.nil => []
  | JObject.cons k _ t => k :: keysO t

mutual
/-- Every object level of the document has pairwise distinct keys. -/
def ndJ : JValue → Bool
  | JValue.null => true
  | JValue.bool _ => true
  | JValue.num _ => true
  | JValue.str _ => true
  | JValue.arr a => ndA a
  | JValue.obj o => decide (keysO o).Nodup && ndO o
def ndA : JArray → Bool
  | JArray.nil => true
  | JArray.cons h t => ndJ h && ndA t
/-- Key uniqueness of the values of an object (this level's own key list
is checked at the `ndJ` node above it). -/
def ndO : JObject → Bool
  | JObject.nil => true
  | JObject.cons _ v t => ndJ v && ndO t
end


/-- Master induction over `PermJ` derivations: a permutation preserves the
key-uniqueness predicate, permutes every object level's key list, and —
given unique keys — leaves the canonical (recursively key-sorted) form of
the document unchanged. -/
theorem and_eq_true_split {a b : Bool} (h : (a && b) = true) : a = true ∧ b = true := by
  simp only [Bool.and_eq_true] at h
  exact h

theorem permJ_nd_sortDeep {j j' : JValue} (h : PermJ j j') :
    ndJ j = ndJ j' ∧ (ndJ j = true → sortDeep j = sortDeep j') := by
  refine @PermJ.rec
    (fun j j' _ => ndJ j = ndJ j' ∧ (ndJ j = true → sortDeep j = sortDeep j'))
    (fun a a' _ => ndA a = ndA a' ∧ (ndA a = true → sortDeepA a = sortDeepA a'))
    (fun o o' _ => ndO o = ndO o' ∧ (keysO o).Perm (keysO o') ∧
      ((keysO o).Nodup → ndO o = true →
        sortFields (sortDeepO o) = sortFields (sortDeepO o')))
    ?_ ?_ ?_ ?_ ?_ ?_ ?_ ?_ ?_ ?_ ?_ ?_ j j' h
  · exact ⟨rfl, fun _ => rfl⟩
  · intro b
    exact ⟨rfl, fun _ => rfl⟩
  · intro n
    exact ⟨rfl, fun _ => rfl⟩
  · intro s
    exact ⟨rfl, fun _ => rfl⟩
  · intro a a' hA ih
    refine ⟨ih.1, fun hnd => ?_⟩
    show JValue.arr (sortDeepA a) = JValue.arr (sortDeepA a')
    exact congrArg JValue.arr (ih.2 hnd)
  · intro o o' hO ih
    constructor
    · show (decide (keysO o).Nodup && ndO o) = (decide (keysO o').Nodup && ndO o')
      rw [ih.1, decide_eq_decide.mpr ih.2.1.nodup_iff]
    · intro hnd
      have hh := @and_eq_true_split (decide (keysO o).Nodup) (ndO o) hnd
      show JValue.obj (sortFields (sortDeepO o)) = JValue.obj (sortFields (sortDeepO o'))
      exact congrArg JValue.obj (ih.2.2 (of_decide_eq_true hh.1) hh.2)
  · exact ⟨rfl, fun _ => rfl⟩
  · intro h h' t t' hJ hA ihJ ihA
    constructor
    · show (ndJ h && ndA t) = (ndJ h' && ndA t')
      rw [ihJ.1, ihA.1]
    · intro hnd
      have hh := @and_eq_true_split (ndJ h) (ndA t) hnd
      show JArray.cons (sortDeep h) (sortDeepA t) = JArray.cons (sortDeep h') (sortDeepA t')
      rw [ihJ.2 hh.1, ihA.2 hh.2]
  · exact ⟨rfl, List.Perm.nil, fun _ _ => rfl⟩
  · intro k v v' t t' hv ht ihv iht
    refine ⟨?_, List.Perm.cons k iht.2.1, ?_⟩
    · show (ndJ v && ndO t) = (ndJ v' && ndO t')
      rw [ihv.1, iht.1]
    · intro hnodup hnd
      have hh := @and_eq_true_split (ndJ v) (ndO t) hnd
      show insertField k (sortDeep v) (sortFields (sortDeepO t)) =
        insertField k (sortDeep v') (sortFields (sortDeepO t'))
      rw [ihv.2 hh.1, iht.2.2 (List.nodup_cons.mp hnodup).2 hh.2]
  · intro k1 v1 k2 v2 t
    refine ⟨?_, List.Perm.swap k2 k1 (keysO t), ?_⟩
    · show (ndJ v1 && (ndJ v2 && ndO t)) = (ndJ v2 && (ndJ v1 && ndO t))
      cases ndJ v1 <;> cases ndJ v2 <;> simp
    · intro hnodup _
      have hne : k1 ≠ k2 := by
        intro he
        exact (List.nodup_cons.mp hnodup).1 (he ▸ List.mem_cons_self k2 (keysO t))
      show insertField k1 (sortDeep v1)
          (insertField k2 (sortDeep v2) (sortFields (sortDeepO t))) =
        insertField k2 (sortDeep v2)
          (insertField k1 (sortDeep v1) (sortFields (sortDeepO t)))
      exact insertField_comm hne _ _ _
  · intro a b c h1 h2 ih1 ih2
    refine ⟨ih1.1.trans ih2.1, ih1.2.1.trans ih2.2.1, fun hnodup hnd => ?_⟩
    exact (ih1.2.2 hnodup hnd).trans
      (ih2.2.2 (ih1.2.1.nodup_iff.mp hnodup) (ih1.1 ▸ hnd))

/-! #### Shape of the digest -/

/-- The lowercase hexadecimal alphabet. -/
def hexDigits : List Char := "0123456789abcdef".data

theorem hexDigitChar_mem : ∀ n, n < 16 → hexDigitChar n ∈ hexDigits := by decide

theorem shake256_16_length (msg : List Nat) : (shake256_16 msg).length = 16 := by
  simp [shake256_16]

theorem shake256_16_bytes_lt (msg : List Nat) : ∀ b ∈ shake256_16 msg, b < 256 := by
  intro b hb
  simp only [shake256_16, List.mem_map] at hb
  obtain ⟨i, -, hi⟩ := hb
  rw [← hi]
  exact Nat.mod_lt _ (by norm_num)

theorem hexdigest16_length (bytes : List Nat) :
    (hexdigest16 bytes).length = 2 * bytes.length := by
  induction bytes with
  | nil => rfl
  | cons b bs ih =>
    simp only [hexdigest16, List.map_cons, List.flatten_cons, List.length_append,
      List.length_cons] at ih ⊢
    rw [ih]
    simp [byteToHex]
    omega

theorem hexdigest16_mem (bytes : List Nat) (hlt : ∀ b ∈ bytes, b < 256) :
    ∀ c ∈ hexdigest16 bytes, c ∈ hexDigits := by
  intro c hc
  simp only [hexdigest16, List.mem_flatten, List.mem_map] at hc
  obtain ⟨l, ⟨b, hb, hbl⟩, hcl⟩ := hc
  rw [← hbl] at hcl
  simp only [byteToHex, List.mem_cons, List.mem_singleton] at hcl
  have hblt := hlt b hb
  rcases hcl with h | h | h
  · rw [h]
    exact hexDigitChar_mem _ (by omega)
  · rw [h]
    exact hexDigitChar_mem _ (Nat.mod_lt _ (by norm_num))
  · simp at h

theorem str_to_hash_length (input : List Char) : (str_to_hash input).length = 32 := by
  unfold str_to_hash
  rw [hexdigest16_length, shake256_16_length]

theorem str_to_hash_mem (input : List Char) : ∀ c ∈ str_to_hash input, c ∈ hexDigits := by
  unfold str_to_hash
  exact hexdigest16_mem _ (shake256_16_bytes_lt _)

/-- C8.  `comet_event_fingerprint` is a pure function; two payloads that
are equal as mappings after the blacklisted fields are removed (their
filtered forms are key-order permutations of each other, keys being unique
at every object level) receive the *same* fingerprint, and every
fingerprint it produces is the prefix followed by exactly 32 lowercase
hexadecimal characters. -/
theorem c8_comet_event_fingerprint (d1 d2 : JObject) (blacklist : List BlackItem)
    (pre : List Char) (q1 q2 : JObject)
    (hf1 : filter_dict d1 blacklist = Except.ok q1)
    (hf2 : filter_dict d2 blacklist = Except.ok q2)
    (hperm : PermJ (JValue.obj q1) (JValue.obj q2))
    (hnd : ndJ (JValue.obj q1) = true) :
    ∃ hex : List Char,
      comet_event_fingerprint d1 blacklist pre = Except.ok (pre ++ hex) ∧
      comet_event_fingerprint d2 blacklist pre = Except.ok (pre ++ hex) ∧
      hex.length = 32 ∧ ∀ c ∈ hex, c ∈ hexDigits := by
  refine ⟨dict_to_hash q1, ?_, ?_, str_to_hash_length _, str_to_hash_mem _⟩
  · unfold comet_event_fingerprint
    rw [hf1]
  · unfold comet_event_fingerprint
    rw [hf2]
    have hsort : sortDeep (JValue.obj q1) = sortDeep (JValue.obj q2) :=
      (permJ_nd_sortDeep hperm).2 hnd
    unfold dict_to_hash jsonDumps
    rw [hsort]

/-- Witness for C8: the payloads `\x7b"b": 1, "a": \x7b"x": 2, "y": 3\x7d,
"secret": 9\x7d` and `\x7b"a": \x7b"y": 3, "x": 2\x7d, "b": 1\x7d` agree as
mappings once the excluded field `secret` is removed, although both object
levels list their keys in different orders; they receive one common
fingerprint of the form `src_` plus 32 hex characters. -/
theorem c8_witness :
    ∃ hex : List Char,
      comet_event_fingerprint
          (JObject.cons "b" (JValue.num 1)
            (JObject.cons "a"
              (JValue.obj (JObject.cons "x" (JValue.num 2)
                (JObject.cons "y" (JValue.num 3) JObject.nil)))
              (JObject.cons "secret" (JValue.num 9) JObject.nil)))
          [BlackItem.key "secret"] "src_".data = Except.ok ("src_".data ++ hex) ∧
      comet_event_fingerprint
          (JObject.cons "a"
            (JValue.obj (JObject.cons "y" (JValue.num 3)
              (JObject.cons "x" (JValue.num 2) JObject.nil)))
            (JObject.cons "b" (JValue.num 1) JObject.nil))
          [BlackItem.key "secret"] "src_".data = Except.ok ("src_".data ++ hex) ∧
      hex.length = 32 ∧ ∀ c ∈ hex, c ∈ hexDigits :=
  c8_comet_event_fingerprint
    (JObject.cons "b" (JValue.num 1)
      (JObject.cons "a"
        (JValue.obj (JObject.cons "x" (JValue.num 2)
          (JObject.cons "y" (JValue.num 3) JObject.nil)))
        (JObject.cons "secret" (JValue.num 9) JObject.nil)))
    (JObject.cons "a"
      (JValue.obj (JObject.cons "y" (JValue.num 3)
        (JObject.cons "x" (JValue.num 2) JObject.nil)))
      (JObject.cons "b" (JValue.num 1) JObject.nil))
    [BlackItem.key "secret"] "src_".data
    (JObject.cons "b" (JValue.num 1)
      (JObject.cons "a"
        (JValue.obj (JObject.cons "x" (JValue.num 2)
          (JObject.cons "y" (JValue.num 3) JObject.nil)))
        JObject.nil))
    (JObject.cons "a"
      (JValue.obj (JObject.cons "y" (JValue.num 3)
        (JObject.cons "x" (JValue.num 2) JObject.nil)))
      (JObject.cons "b" (JValue.num 1) JObject.nil))
    rfl rfl
    (PermJ.obj (PermO.trans
      (PermO.cons "b" (PermJ.num 1)
        (PermO.cons "a"
          (PermJ.obj (PermO.swap "x" (JValue.num 2) "y" (JValue.num 3) JObject.nil))
          PermO.nil))
      (PermO.swap "b" (JValue.num 1) "a"
        (JValue.obj (JObject.cons "y" (JValue.num 3)
          (JObject.cons "x" (JValue.num 2) JObject.nil)))
        JObject.nil)))
    (by decide)

end Comet
